import Mathlib

/-!
Verification development for the knowledge-base pipeline of the
`faithcal-mastra-app` repository (document ingestion with intelligent
chunking, semantic search with re-ranking, and knowledge-base
maintenance operations).

The TypeScript sources are shallowly embedded here:

* strings are `List Char` (`Str`); the handful of regex operations the
  code uses (`split(/\n\s*\n/)`, `split(/[.!?]+\s+/)`, `split(/\s+/)`,
  `match(/\b\w+\b/g)`, `replace(/\s+/g, ' ')`, case-insensitive
  substring tests) are implemented as executable character scanners
  with the exact leftmost/greedy semantics of the JS regex engine;
* JS numbers are modelled as exact rationals `ℚ` (floating-point
  rounding is abstracted away); the arithmetic is routed through
  kernel-reducible wrappers (`jsAdd`, `jsMul`, `jsDivQ`, `jsMin`,
  `jsFloorQ`) that are proved equal to the Mathlib operations;
* the Pinecone index is a state `Pine` (a list of records plus an
  optional failure mode standing for a collaborator outage); network
  effects are logged in an explicit `PineEff` trace;
* `Date`/locale functionality and the randomized sampling queries are
  oracles passed in as function arguments, since they depend on the
  wall clock / `Math.random`.

Definitions keep the source names (`intelligentChunking`,
`validateContent`, `calculateRerankScore`, `cleanupKnowledgeBase`, ...)
and mirror the control flow of the TypeScript line by line.
-/

set_option maxRecDepth 20000

abbrev Str := List Char

/-- JS `\s` whitespace class (restricted to the ASCII whitespace the
repository's data can contain). -/
def jsIsWs (c : Char) : Bool :=
  c = ' ' || c = '\t' || c = '\n' || c = '\r' || c = '\x0b' || c = '\x0c'

/-- JS `\w` word-character class `[A-Za-z0-9_]`. -/
def isWordChar (c : Char) : Bool :=
  c.isAlphanum || c = '_'

/-- JS `String.prototype.trim`. -/
def jsTrim (s : Str) : Str :=
  ((s.dropWhile jsIsWs).reverse.dropWhile jsIsWs).reverse

/-- JS `String.prototype.toLowerCase` (ASCII). -/
def toLowerS (s : Str) : Str := s.map Char.toLower

/-- Helper for `replace(/\s+/g, ' ')`: each maximal whitespace run
becomes a single space.  The flag records whether we are inside a run. -/
def collapseWsGo : Bool → Str → Str
  | _, [] => []
  | inWs, c :: rest =>
    if jsIsWs c then
      if inWs then collapseWsGo true rest else ' ' :: collapseWsGo true rest
    else c :: collapseWsGo false rest

/-- JS `replace(/\s+/g, ' ')`. -/
def collapseWs (s : Str) : Str := collapseWsGo false s

/-- JS `split(/\s+/)` (pieces between whitespace runs; a leading or
trailing run contributes an empty piece, as in JS). -/
def splitWsGo : Bool → Str → Str → List Str
  | _, [], cur => [cur.reverse]
  | inWs, c :: rest, cur =>
    if jsIsWs c then
      if inWs then splitWsGo true rest []
      else cur.reverse :: splitWsGo true rest []
    else splitWsGo false rest (c :: cur)

/-- JS `split(/\s+/)`. -/
def splitWs (s : Str) : List Str := splitWsGo false s []

/-- JS `split(sep)` for a single-character separator (used for
`currentChunk.split(' ')`; empty pieces are kept, as in JS). -/
def splitOnChar : Str → Char → Str → List Str
  | [], _, cur => [cur.reverse]
  | c :: rest, sep, cur =>
    if c = sep then cur.reverse :: splitOnChar rest sep []
    else splitOnChar rest sep (c :: cur)

/-- JS `arr.join(sep)`. -/
def joinWith (sep : Str) : List Str → Str
  | [] => []
  | [x] => x
  | x :: y :: rest => x ++ sep ++ joinWith sep (y :: rest)

/-- Does `needle` occur as a contiguous substring of `hay`
(JS `String.prototype.includes`)? -/
def jsIncludes : Str → Str → Bool
  | [], needle => needle.isEmpty
  | c :: rest, needle => needle.isPrefixOf (c :: rest) || jsIncludes rest needle

/-- JS `arr.slice(start)` for an integer `start` (negative counts from
the end; `slice(-0)` is `slice(0)`, i.e. the whole array). -/
def jsSliceFrom (start : Int) (l : List α) : List α :=
  if start < 0 then l.drop (max (l.length + start) 0).toNat
  else l.drop (min start l.length).toNat

/-- The last `k` elements of a list (all of them when it is shorter). -/
def lastN (l : List α) (k : Nat) : List α := l.drop (l.length - k)

/-- Maximal runs of word characters: the matches of `/\b\w+\b/g`. -/
def wordRunsGo : Str → Str → List Str
  | [], cur => if cur.isEmpty then [] else [cur.reverse]
  | c :: rest, cur =>
    if isWordChar c then wordRunsGo rest (c :: cur)
    else if cur.isEmpty then wordRunsGo rest []
    else cur.reverse :: wordRunsGo rest []

/-- Matches of `/\b\w+\b/g` on a string. -/
def wordRuns (s : Str) : List Str := wordRunsGo s []

/-- Index of the last newline of a character list, if any. -/
def lastNewlineIdx (l : Str) : Option Nat :=
  match l.reverse.findIdx? (fun c => c = '\n') with
  | some k => some (l.length - 1 - k)
  | none => none

/-- Scanner for `content.split(/\n\s*\n/)`.  A greedy leftmost match of
`\n\s*\n` consumes a maximal whitespace run from its first newline
through its last newline (the run must contain at least two newlines);
whitespace before the first and after the last newline of the run stays
with the surrounding pieces.  Fuel is the remaining input length. -/
def splitBlankGo : Nat → Str → Str → List Str
  | 0, rest, cur => [cur.reverse ++ rest]
  | _ + 1, [], cur => [cur.reverse]
  | fuel + 1, c :: rest, cur =>
    if c = '\n' then
      let run := rest.takeWhile jsIsWs
      match lastNewlineIdx run with
      | some j => cur.reverse :: splitBlankGo fuel (rest.drop (j + 1)) []
      | none => splitBlankGo fuel rest ('\n' :: cur)
    else splitBlankGo fuel rest (c :: cur)

/-- JS `content.split(/\n\s*\n/)`. -/
def splitBlankLines (s : Str) : List Str := splitBlankGo (s.length + 1) s []

/-- Sentence terminator class `[.!?]`. -/
def isTermCh (c : Char) : Bool := c = '.' || c = '!' || c = '?'

/-- Scanner for `paragraph.split(/[.!?]+\s+/)`: a match is a maximal
run of sentence terminators followed by at least one whitespace
character (consumed greedily).  Fuel is the remaining input length. -/
def splitSentGo : Nat → Str → Str → List Str
  | 0, rest, cur => [cur.reverse ++ rest]
  | _ + 1, [], cur => [cur.reverse]
  | fuel + 1, c :: rest, cur =>
    if isTermCh c then
      let run := rest.takeWhile isTermCh
      let rest2 := rest.drop run.length
      let ws := rest2.takeWhile jsIsWs
      if ws.length > 0 then cur.reverse :: splitSentGo fuel (rest2.drop ws.length) []
      else splitSentGo fuel rest (c :: cur)
    else splitSentGo fuel rest (c :: cur)

/-- JS `paragraph.split(/[.!?]+\s+/)`. -/
def splitSentences (s : Str) : List Str := splitSentGo (s.length + 1) s []

/-- Scanner for `content.split(/[.!?]+/)` (no trailing-whitespace
requirement; used by `extractMetadata`). -/
def splitTermGo : Nat → Str → Str → List Str
  | 0, rest, cur => [cur.reverse ++ rest]
  | _ + 1, [], cur => [cur.reverse]
  | fuel + 1, c :: rest, cur =>
    if isTermCh c then
      let run := rest.takeWhile isTermCh
      cur.reverse :: splitTermGo fuel (rest.drop run.length) []
    else splitTermGo fuel rest (c :: cur)

/-- JS `content.split(/[.!?]+/)`. -/
def splitTermRuns (s : Str) : List Str := splitTermGo (s.length + 1) s []

/-- Decimal digits of a natural number (fuel-based so that the kernel
can evaluate it). -/
def natToStrGo : Nat → Nat → Str
  | 0, _ => []
  | fuel + 1, n =>
    if n < 10 then [Char.ofNat (48 + n)]
    else natToStrGo fuel (n / 10) ++ [Char.ofNat (48 + n % 10)]

/-- JS `String(n)` for a natural number. -/
def natToStr (n : Nat) : Str := natToStrGo (n + 1) n

/-- JS `String(i)` / `Number.prototype.toString` for an integer. -/
def intToStr (i : Int) : Str :=
  if i < 0 then '-' :: natToStr i.natAbs else natToStr i.natAbs

/-- Kernel-reducible addition on `ℚ` (`Rat.add` itself does not reduce
in the kernel). -/
def jsAdd (a b : ℚ) : ℚ := Rat.divInt (a.num * b.den + b.num * a.den) (a.den * b.den)

/-- Kernel-reducible multiplication on `ℚ`. -/
def jsMul (a b : ℚ) : ℚ := Rat.divInt (a.num * b.num) (a.den * b.den)

/-- Kernel-reducible division on `ℚ` (JS division; division by zero
cannot occur at the call sites, which guard the denominator). -/
def jsDivQ (a b : ℚ) : ℚ := Rat.divInt (a.num * b.den) (a.den * b.num)

/-- JS `Math.min` of a value and a bound. -/
def jsMin (a b : ℚ) : ℚ := if a ≤ b then a else b

/-- Kernel-reducible `⌊q⌋` (JS `Math.floor`). -/
def jsFloorQ (q : ℚ) : ℤ := Int.fdiv q.num q.den

/-- JS `Math.round` (round half toward +∞, i.e. `⌊q + 1/2⌋`). -/
def jsRound (q : ℚ) : ℤ := jsFloorQ (jsAdd q (Rat.divInt 1 2))

/-- Rational of a natural number, via `Rat.divInt` so it reduces. -/
def qn (n : Nat) : ℚ := Rat.divInt n 1

/-- JS `ToInt32` (the effect of `hash & hash` / `<< 5` in `hashContent`):
wrap into `[-2^31, 2^31)`. -/
def toInt32 (n : ℤ) : ℤ := (n + 2 ^ 31).emod (2 ^ 32) - 2 ^ 31

/-! ## Metadata objects

Pinecone record metadata is a JS object; we model it as an ordered
association list (JS objects preserve insertion order for the
non-numeric keys this code produces). -/

/-- A JS metadata value: string, number, boolean, or array of strings. -/
inductive MVal
  | s (v : Str)
  | n (v : ℚ)
  | b (v : Bool)
  | strs (v : List Str)
deriving DecidableEq

/-- A JS object used as metadata. -/
abbrev Meta := List (Str × MVal)

/-- Property lookup `obj[k]` (first entry with the key wins). -/
def jsGet : Meta → Str → Option MVal
  | [], _ => none
  | p :: rest, k => if p.1 = k then some p.2 else jsGet rest k

/-- Does the object have the key? -/
def hasKey (m : Meta) (k : Str) : Bool := (jsGet m k).isSome

/-- JS `Object.keys`. -/
def metaKeys (m : Meta) : List Str := m.map (fun p => p.1)

/-- JS object spread `{...a, ...b}`: the keys of `a` keep their
positions (values overridden by `b` where present) and the new keys of
`b` are appended in order. -/
def spreadMerge (a b : Meta) : Meta :=
  a.map (fun p => (p.1, ((jsGet b p.1).getD p.2))) ++
    b.filter (fun p => !(hasKey a p.1))

/-- String-valued field with a JS `|| dflt` fallback (kicks in when the
key is absent or its value is falsy, i.e. the empty string). -/
def getStrD (m : Meta) (k : Str) (dflt : Str) : Str :=
  match jsGet m k with
  | some (MVal.s v) => if v.isEmpty then dflt else v
  | _ => dflt

/-- String-valued field without a fallback (JS truthiness checks). -/
def getStr (m : Meta) (k : Str) : Option Str :=
  match jsGet m k with
  | some (MVal.s v) => some v
  | _ => none

/-- Number-valued field with a JS `|| dflt` fallback (`0` is falsy). -/
def getNumD (m : Meta) (k : Str) (dflt : ℚ) : ℚ :=
  match jsGet m k with
  | some (MVal.n v) => if v = 0 then dflt else v
  | _ => dflt

/-- Increment a histogram entry (JS `obj[k] = (obj[k] || 0) + 1`; an
existing key keeps its position). -/
def bumpCount : List (Str × Nat) → Str → List (Str × Nat)
  | [], k => [(k, 1)]
  | (k', v) :: rest, k =>
    if k' = k then (k', v + 1) :: rest else (k', v) :: bumpCount rest k

/-! ## Chunking & metadata engine (`documentIndexTool.ts`)

`intelligentChunking(content, chunkSize, overlap)` splits on blank
lines, accumulates paragraphs up to `chunkSize`, seeds each new chunk
with `words.slice(-Math.floor(overlap / 10))` of the closed chunk, and
further splits oversized paragraphs on sentence boundaries. -/

/-- The accumulator of the paragraph loop: produced chunks, the current
chunk, and the running size counter `currentSize`. -/
structure CState where
  chunks : List Str
  cur : Str
  curSize : Nat
deriving DecidableEq

/-- `words.slice(-Math.floor(overlap / 10))` of the source. -/
def overlapWordsOf (words : List Str) (overlap : Nat) : List Str :=
  jsSliceFrom (-((overlap / 10 : Nat) : Int)) words

/-- One iteration of the sentence loop inside `intelligentChunking`
(the oversized-paragraph path).  State: (chunks so far, sentenceChunk). -/
def sentStep (chunkSize overlap : Nat) (st : List Str × Str) (sentence : Str) :
    List Str × Str :=
  if (st.2 ++ sentence).length > chunkSize && !st.2.isEmpty then
    let words := splitOnChar st.2 ' ' []
    let ow := overlapWordsOf words overlap
    (st.1 ++ [jsTrim st.2], joinWith [' '] ow ++ ' ' :: sentence)
  else
    (st.1, st.2 ++ (if st.2.isEmpty then [] else [' ']) ++ sentence)

/-- One iteration of the paragraph loop of `intelligentChunking`. -/
def chunkPara (chunkSize overlap : Nat) (s : CState) (p : Str) : CState :=
  let pSize := p.length
  if pSize > chunkSize then
    let base := if !(jsTrim s.cur).isEmpty then s.chunks ++ [jsTrim s.cur] else s.chunks
    let sentences := (splitSentences p).filter (fun x => (jsTrim x).length > 0)
    let fin := sentences.foldl (sentStep chunkSize overlap) (base, [])
    let chs := if !(jsTrim fin.2).isEmpty then fin.1 ++ [jsTrim fin.2] else fin.1
    ⟨chs, [], 0⟩
  else if s.curSize + pSize > chunkSize && !s.cur.isEmpty then
    let words := splitOnChar s.cur ' ' []
    let ow := overlapWordsOf words overlap
    let newCur := joinWith [' '] ow ++ '\n' :: '\n' :: p
    ⟨s.chunks ++ [jsTrim s.cur], newCur, newCur.length⟩
  else
    ⟨s.chunks, s.cur ++ (if s.cur.isEmpty then [] else ['\n', '\n']) ++ p,
      s.curSize + pSize + 2⟩

/-- `DocumentIndexTool.intelligentChunking` (documentIndexTool.ts,
lines 333-399). -/
def intelligentChunking (content : Str) (chunkSize : Nat := 1000)
    (overlap : Nat := 200) : List Str :=
  let paragraphs := (splitBlankLines content).filter (fun p => (jsTrim p).length > 0)
  let fin := paragraphs.foldl (chunkPara chunkSize overlap) ⟨[], [], 0⟩
  let chunks := if !(jsTrim fin.cur).isEmpty then fin.chunks ++ [jsTrim fin.cur] else fin.chunks
  chunks.filter (fun c => c.length > 0)

/-- Result shape of `DocumentIndexTool.validateContent`. -/
structure Validation where
  isValid : Bool
  errors : List Str
  warnings : List Str
deriving DecidableEq

/-- Case-insensitive test of `/api[_\s]*key/` starting at the head of
the (already lowercased) string. -/
def apiKeyAt (l : Str) : Bool :=
  ('a' :: 'p' :: 'i' :: []).isPrefixOf l &&
    ('k' :: 'e' :: 'y' :: []).isPrefixOf
      ((l.drop 3).dropWhile (fun c => c = '_' || jsIsWs c))

/-- Case-insensitive test of `/api[_\s]*key/` anywhere in the string. -/
def apiKeyScan : Str → Bool
  | [] => false
  | c :: rest => apiKeyAt (c :: rest) || apiKeyScan rest

/-- `DocumentIndexTool.validateContent` (documentIndexTool.ts, lines
242-286).  `isValid` is flipped exactly by the two hard errors; the
four `suspiciousPatterns` produce warnings only. -/
def validateContent (content title : Str) : Validation :=
  let lower := toLowerS content
  let errs1 : List Str :=
    if content.isEmpty || (jsTrim content).length = 0 then
      ["Content is empty or contains only whitespace".toList]
    else []
  let warns1 : List Str :=
    if content.length < 50 then
      ["Content is very short, may not provide meaningful search results".toList]
    else []
  let warns2 : List Str :=
    if content.length > 1000000 then
      ["Content is very large, consider splitting into multiple documents".toList]
    else []
  let errs2 : List Str :=
    if title.isEmpty || (jsTrim title).length = 0 then
      ["Title is required".toList]
    else []
  let sens : List Str :=
    (if jsIncludes lower "password".toList then
      ["Content may contain sensitive information (password)".toList] else []) ++
    (if apiKeyScan lower then
      ["Content may contain sensitive information (api[_\\s]*key)".toList] else []) ++
    (if jsIncludes lower "secret".toList then
      ["Content may contain sensitive information (secret)".toList] else []) ++
    (if jsIncludes lower "token".toList then
      ["Content may contain sensitive information (token)".toList] else [])
  { isValid := (errs1 ++ errs2).isEmpty
    errors := errs1 ++ errs2
    warnings := warns1 ++ warns2 ++ sens }

/-- The stop-word set of `extractMetadata`. -/
def commonWords : List Str :=
  (["the", "a", "an", "and", "or", "but", "in", "on", "at", "to", "for",
    "of", "with", "by", "from", "up", "about", "into", "through",
    "during", "before", "after", "above", "below", "between", "among",
    "is", "are", "was", "were", "be", "been", "being", "have", "has",
    "had", "do", "does", "did", "will", "would", "could", "should",
    "may", "might", "must", "can", "shall"]).map String.toList

/-- `word.toLowerCase().replace(/[^\w]/g, '')`. -/
def cleanWordOf (w : Str) : Str := (toLowerS w).filter isWordChar

/-- `DocumentIndexTool.extractMetadata` (documentIndexTool.ts, lines
291-328).  The word-frequency table is an insertion-ordered object
(`Object.entries` would move integer-like keys first; the advisory
`topics` field is the only consumer, and the claims do not depend on
it).  `Array.prototype.sort` is stable, modelled by `insertionSort`. -/
def extractMetadata (content title : Str) : Meta :=
  let words := (splitWs content).filter (fun w => w.length > 0)
  let wordCount := words.length
  let estimatedReadingTime := (wordCount + 199) / 200
  let wordFreq : List (Str × Nat) :=
    words.foldl (fun m w =>
      let cw := cleanWordOf w
      if cw.length > 3 && !(commonWords.contains cw) then bumpCount m cw else m) []
  let topics :=
    ((List.insertionSort (fun x y : Str × Nat => x.2 ≥ y.2) wordFreq).take 10).map
      (fun p => p.1)
  let sentences := (splitTermRuns content).filter (fun s => (jsTrim s).length > 20)
  let summary :=
    match sentences with
    | s0 :: _ => (jsTrim s0).take 200 ++ "...".toList
    | [] => title
  [("wordCount".toList, MVal.n (qn wordCount)),
   ("estimatedReadingTime".toList, MVal.n (qn estimatedReadingTime)),
   ("language".toList, MVal.s "en".toList),
   ("topics".toList, MVal.strs topics),
   ("entities".toList, MVal.strs []),
   ("summary".toList, MVal.s summary)]

/-- `DocumentIndexTool.generateChunkId` (documentIndexTool.ts, lines
458-462). -/
def generateChunkId (title : Str) (chunkIndex : Nat) (nowMs : Nat) : Str :=
  let titleHash :=
    ((toLowerS title).map (fun c =>
      if ('a' ≤ c && c ≤ 'z') || ('0' ≤ c && c ≤ '9') then c else '-')).take 20
  titleHash ++ '-' :: natToStr chunkIndex ++ '-' :: natToStr nowMs

/-! ## Pinecone store model

The vector index is external; we model its visible state as a list of
records plus an optional failure mode (`fail = some msg` means every
network call to the store raises `msg`, the collaborator-outage
scenario of the error-handling design).  Since the management tool only
ever queries with placeholder or random vectors, the nearest-neighbor
ranking is abstracted: a query returns the (filtered) records in store
order, and each record carries the `score` the store would report for
it. -/

/-- A stored vector record (Pinecone `{id, values, metadata}` plus the
score it is reported with on a query). -/
structure PineRec where
  id : Str
  values : List ℚ := []
  score : ℚ := 0
  metadata : Meta
deriving DecidableEq

/-- The store state. -/
structure Pine where
  recs : List PineRec
  fail : Option Str := none
deriving DecidableEq

/-- Trace of network effects (store calls, file reads, embedding
calls), used to state frame properties. -/
inductive PineEff
  | query
  | statsCall
  | deleteIds (ids : List Str)
  | updateMeta (n : Nat)
  | upsert (n : Nat)
  | fileRead (path : Str)
  | embedText (text : Str)
deriving DecidableEq

/-- A metadata-filtered query (`index.query` with `topK` and an
equality filter), returning up to `topK` matching records. -/
def pineQueryRecs (st : Pine) (topK : Nat) (filt : Meta → Bool) :
    Except Str (List PineRec) :=
  match st.fail with
  | some m => Except.error m
  | none => Except.ok ((st.recs.filter (fun r => filt r.metadata)).take topK)

/-- `PineconeHelper.safeDelete` (pineconeHelper.ts, lines 19-48): the
bulk-delete path, wrapping a failure as
`Failed to delete vectors: ...`. -/
def safeDelete (st : Pine) (ids : List Str) : Except Str Pine :=
  match st.fail with
  | some m => Except.error ("Failed to delete vectors: ".toList ++ m)
  | none => Except.ok { st with recs := st.recs.filter (fun r => !(ids.contains r.id)) }

/-- One `index.update({id, metadata})` call: the record with the id
gets the supplied metadata (the code always sends the full merged
object, so replace and server-side merge coincide). -/
def applyPatch (recs : List PineRec) (u : Str × Meta) : List PineRec :=
  recs.map (fun r => if r.id = u.1 then { r with metadata := u.2 } else r)

/-- `PineconeHelper.safeUpdate` (pineconeHelper.ts, lines 53-69):
sequential per-record updates, wrapping a failure as
`Failed to update vectors: ...`. -/
def safeUpdate (st : Pine) (updates : List (Str × Meta)) : Except Str Pine :=
  match st.fail with
  | some m => Except.error ("Failed to update vectors: ".toList ++ m)
  | none => Except.ok { st with recs := updates.foldl applyPatch st.recs }

/-- Upsert a batch: same id overwrites in place, new ids append. -/
def upsertRecs (recs : List PineRec) (batch : List PineRec) : List PineRec :=
  batch.foldl (fun acc v =>
    if acc.any (fun r => r.id = v.id) then
      acc.map (fun r => if r.id = v.id then v else r)
    else acc ++ [v]) recs

/-- Split a list into consecutive batches of `n` (fuel-based). -/
def splitEveryGo : Nat → Nat → List α → List (List α)
  | _, _, [] => []
  | 0, _, l => [l]
  | fuel + 1, n, l => l.take n :: splitEveryGo fuel n (l.drop n)

/-- Consecutive batches of size `n` (the last may be shorter). -/
def splitEvery (n : Nat) (l : List α) : List (List α) :=
  splitEveryGo (l.length + 1) n l

/-! ## Document index tool (`documentIndexTool.ts`) -/

/-- Outcome of `DocumentIndexTool.processFile`: its body is filesystem
and parser-library access (`fs`, `pdf-parse`, `cheerio`), an external
adapter per the design, so it is an oracle here. -/
structure FileRes where
  success : Bool
  content : Str
  metadata : Meta
  errors : List Str
deriving DecidableEq

/-- External collaborators of the index tool: the file adapter, the
embedding service (`createEmbedding`, whose failure message is already
wrapped as `Failed to create embedding: ...` by the source), and the
wall clock. -/
structure IndexCollab where
  processFile : Str → FileRes
  createEmbedding : Str → Except Str (List ℚ)
  nowIso : Str
  nowMs : Nat

/-- The `options` object of `DocumentIndexTool.execute`; a `0` numeric
field stands for JS `undefined` (both are falsy for the `||` defaults
applied at the use sites). -/
structure IndexOptions where
  chunkSize : Nat := 1000
  chunkOverlap : Nat := 200
  extractMetadata : Bool := true
  validateContent : Bool := true
deriving DecidableEq

/-- Aggregate indexing statistics reported on success. -/
structure IndexingStats where
  totalVectors : Nat
  averageChunkSize : ℤ
  batchesProcessed : Nat
deriving DecidableEq

/-- The result object of `DocumentIndexTool.execute`. -/
structure IndexResult where
  success : Bool := false
  chunksIndexed : Nat := 0
  title : Str
  category : Str
  source : Str
  fileInfo : Option Meta := none
  extracted : Option Meta := none
  indexingStats : Option IndexingStats := none
  errors : List Str := []
  warnings : List Str := []
deriving DecidableEq

/-- `DocumentIndexTool.generateEmbeddings`: embed every chunk, aborting
on the first failure (the source batches ten at a time with a pacing
delay, which does not change the value or the order). -/
def embedAll (c : IndexCollab) : List Str → Except Str (List (List ℚ)) × List PineEff
  | [] => (Except.ok [], [])
  | ch :: rest =>
    match c.createEmbedding ch with
    | Except.error m => (Except.error m, [PineEff.embedText ch])
    | Except.ok e =>
      let r := embedAll c rest
      (r.1.map (fun l => e :: l), PineEff.embedText ch :: r.2)

/-- The upsert loop of `DocumentIndexTool.execute` (batches of 100; a
store outage makes the first batch call throw). -/
def upsertAll (st : Pine) (vecs : List PineRec) : Except Str Pine × List PineEff :=
  if vecs.isEmpty then (Except.ok st, [])
  else
    match st.fail with
    | some m => (Except.error m, [PineEff.upsert (vecs.take 100).length])
    | none =>
      (Except.ok { st with recs := (splitEvery 100 vecs).foldl upsertRecs st.recs },
        (splitEvery 100 vecs).map (fun b => PineEff.upsert b.length))

namespace DocumentIndexTool

/-- The embedding-then-upsert tail of `DocumentIndexTool.execute`:
embed every chunk (any failure aborts with `Indexing failed: ...`),
build the vector records, and upsert them in batches of 100. -/
def embedUpsert (c : IndexCollab) (st : Pine) (base : IndexResult) (chunks : List Str)
    (buildVectors : List (List ℚ) → List PineRec) : IndexResult × Pine × List PineEff :=
  match embedAll c chunks with
  | (Except.error m, effs1) =>
    ({ base with errors := ["Indexing failed: ".toList ++ m] }, st, effs1)
  | (Except.ok embeddings, effs1) =>
    match upsertAll st (buildVectors embeddings) with
    | (Except.error m, effs2) =>
      ({ base with errors := ["Indexing failed: ".toList ++ m] }, st, effs1 ++ effs2)
    | (Except.ok st2, effs2) =>
      ({ base with
          success := true
          chunksIndexed := chunks.length
          indexingStats := some
            { totalVectors := (buildVectors embeddings).length
              averageChunkSize :=
                jsRound (jsDivQ (qn (chunks.foldl (fun s ch => s + ch.length) 0)) (qn chunks.length))
              batchesProcessed := ((buildVectors embeddings).length + 99) / 100 } },
        st2, effs1 ++ effs2)

/-- The vector records built for the chunks (one per chunk, with the
shared document metadata, the per-chunk fields, and the extracted
metadata spread last, as in the object literal of the source). -/
def buildChunkVectors (c : IndexCollab) (title category source : Str)
    (extracted : Option Meta) (chunks : List Str) (embeddings : List (List ℚ)) :
    List PineRec :=
  ((chunks.zip embeddings).enum).map (fun p =>
    ({ id := generateChunkId title p.1 c.nowMs
       values := p.2.2
       score := 0
       metadata := spreadMerge
         [("title".toList, MVal.s title),
          ("category".toList, MVal.s category),
          ("source".toList, MVal.s source),
          ("content".toList, MVal.s p.2.1),
          ("chunkIndex".toList, MVal.n (qn p.1)),
          ("totalChunks".toList, MVal.n (qn chunks.length)),
          ("timestamp".toList, MVal.s c.nowIso),
          ("wordCount".toList, MVal.n (qn (splitWs p.2.1).length))]
         (extracted.getD []) } : PineRec))

/-- The pipeline of `DocumentIndexTool.execute` after content
resolution and validation: metadata extraction, chunking, embedding,
vector building, batched upsert.  (The returned trace contains only the
effects of this stage.) -/
def executeStage2 (c : IndexCollab) (st : Pine) (documentContent title category source : Str)
    (fi : Option Meta) (warnings0 : List Str) (opts : IndexOptions) :
    IndexResult × Pine × List PineEff :=
  let extracted := if opts.extractMetadata then some (extractMetadata documentContent title) else none
  let base : IndexResult :=
    { title := title
      category := category
      source := source
      fileInfo := fi
      extracted := extracted
      warnings := warnings0 }
  let chunks := intelligentChunking documentContent
    (if opts.chunkSize = 0 then 1000 else opts.chunkSize)
    (if opts.chunkOverlap = 0 then 200 else opts.chunkOverlap)
  if chunks.isEmpty then
    ({ base with errors := ["No valid chunks created from content".toList] }, st, [])
  else
    embedUpsert c st base chunks (buildChunkVectors c title category source extracted chunks)

/-- Validation step of `DocumentIndexTool.execute` (lines 82-93 of
documentIndexTool.ts): validation errors and warnings reach the result
only inside the `!validation.isValid` branch; a hard error aborts. -/
def executeValidated (c : IndexCollab) (st : Pine) (documentContent title category source : Str)
    (fi : Option Meta) (opts : IndexOptions) :
    IndexResult × Pine × List PineEff :=
  if opts.validateContent then
    let v := validateContent documentContent title
    if !v.isValid then
      if !v.errors.isEmpty then
        ({ title := title
           category := category
           source := source
           fileInfo := fi
           errors := v.errors
           warnings := v.warnings }, st, [])
      else executeStage2 c st documentContent title category source fi v.warnings opts
    else executeStage2 c st documentContent title category source fi [] opts
  else executeStage2 c st documentContent title category source fi [] opts

/-- `DocumentIndexTool.execute` (documentIndexTool.ts, lines 31-156).
The file adapter is consulted only when `filePath` is truthy and the
inline `content` is falsy (empty). -/
def execute (c : IndexCollab) (st : Pine) (content : Str) (title : Str)
    (category : Str := "General".toList) (source : Str := "Manual Input".toList)
    (filePath : Option Str := none) (opts : IndexOptions := {}) :
    IndexResult × Pine × List PineEff :=
  match filePath with
  | some p =>
    if !p.isEmpty && content.isEmpty then
      let fr := c.processFile p
      if fr.success then
        let r := executeValidated c st fr.content title category source (some fr.metadata) opts
        (r.1, r.2.1, PineEff.fileRead p :: r.2.2)
      else
        ({ title := title, category := category, source := source, errors := fr.errors },
          st, [PineEff.fileRead p])
    else executeValidated c st content title category source none opts
  | none => executeValidated c st content title category source none opts

end DocumentIndexTool

/-! ## Knowledge search tool (`knowledgeManagementTool.ts`, second
compilation unit: class `KnowledgeSearchTool`) -/

/-- Oracle for the JS `Date` library: parse-to-milliseconds (`none`
models an invalid date / `NaN`), the month key and ISO rendering used
by the management tool, and the wall clock. -/
structure JsDate where
  ms : Str → Option ℤ
  yearOk : Str → Bool
  monthKey : Str → Str
  toIso : Str → Str
  nowMs : ℤ
  nowIso : Str

/-- External collaborators of the search tool: the embedding service
(`createEmbedding`, message already wrapped as
`Failed to create embedding: ...`) and the vector index
(`index.query` with `topK` and the optional category equality filter;
the returned matches carry their similarity scores). -/
structure SearchCollab where
  embed : Str → Except Str (List ℚ)
  query : List ℚ → Nat → Option Str → Except Str (List PineRec)

/-- One processed search result (the object built in
`KnowledgeSearchTool.execute`, lines 738-748). -/
structure SearchResult where
  id : Str
  score : ℚ
  content : Str
  title : Str
  category : Str
  source : Str
  timestamp : Str
  chunkIndex : ℚ
  relevanceLevel : Str
deriving DecidableEq

/-- The result object of `KnowledgeSearchTool.execute`.  The catch
branch of the source returns an object without the `query` /
`searchParams` fields, hence the `Option`s. -/
structure SearchOutput where
  results : List SearchResult := []
  totalFound : Nat := 0
  queryEcho : Option Str := none
  searchParamsEcho : Option (Nat × Option Str × ℚ) := none
  suggestions : List Str := []
  insights : Option (Nat × Nat × Nat × List Str) := none
  errorMsg : Option Str := none
deriving DecidableEq

/-- Insertion-order deduplication (`[...new Set(xs)]`). -/
def dedupFirstGo : List Str → List Str → List Str
  | [], _ => []
  | x :: rest, seen =>
    if seen.contains x then dedupFirstGo rest seen
    else x :: dedupFirstGo rest (x :: seen)

/-- JS `[...new Set(xs)]`. -/
def dedupFirst (l : List Str) : List Str := dedupFirstGo l []

/-- The category filter attached to the search parameters only when
the option is truthy (`if (category) searchParams.filter = ...`). -/
def categoryFilter : Option Str → Option Str
  | some ct => if ct.isEmpty then none else some ct
  | none => none

namespace KnowledgeSearchTool

/-- `KnowledgeSearchTool.getRelevanceLevel` (lines 821-826). -/
def getRelevanceLevel (score : ℚ) : Str :=
  if Rat.divInt 9 10 ≤ score then "high".toList
  else if Rat.divInt 8 10 ≤ score then "medium".toList
  else if Rat.divInt 7 10 ≤ score then "low".toList
  else "minimal".toList

/-- The per-match result mapping of `KnowledgeSearchTool.execute`. -/
def toSearchResult (m : PineRec) : SearchResult :=
  { id := m.id
    score := m.score
    content := getStrD m.metadata "content".toList []
    title := getStrD m.metadata "title".toList "Unknown".toList
    category := getStrD m.metadata "category".toList "General".toList
    source := getStrD m.metadata "source".toList "Unknown".toList
    timestamp := getStrD m.metadata "timestamp".toList "Unknown".toList
    chunkIndex := getNumD m.metadata "chunkIndex".toList 0
    relevanceLevel := getRelevanceLevel m.score }

/-- The catch branch of `KnowledgeSearchTool.execute` (lines 771-785). -/
def errorOutput (m : Str) : SearchOutput :=
  { results := []
    totalFound := 0
    errorMsg := some ("Knowledge search failed: ".toList ++ m)
    suggestions :=
      ["Check if the knowledge base is properly initialized".toList,
       "Verify API keys and connection settings".toList,
       "Try a simpler search query".toList] }

/-- `KnowledgeSearchTool.execute` (lines 695-786): embed the query,
query the store with `topK` capped at 20 and an optional category
filter, drop matches under the threshold, annotate relevance, and
report suggestions or insights. -/
def execute (c : SearchCollab) (query : Str) (topK : Nat := 5)
    (category : Option Str := none) (threshold : ℚ := Rat.divInt 7 10) : SearchOutput :=
  match c.embed query with
  | Except.error m => errorOutput m
  | Except.ok emb =>
    match c.query emb (min topK 20) (categoryFilter category) with
    | Except.error m => errorOutput m
    | Except.ok found =>
      let filteredResults := (found.filter (fun m => threshold ≤ m.score)).map toSearchResult
      let base : SearchOutput :=
        { results := filteredResults
          totalFound := filteredResults.length
          queryEcho := some query
          searchParamsEcho := some (topK, category, threshold) }
      if filteredResults.isEmpty then
        { base with suggestions :=
            ["Try using different keywords or synonyms".toList,
             "Consider broadening your search terms".toList,
             "Check if the information exists in the knowledge base".toList] }
      else
        let ins :=
          ((filteredResults.filter (fun r => Rat.divInt 9 10 ≤ r.score)).length,
           (filteredResults.filter (fun r => Rat.divInt 8 10 ≤ r.score ∧ r.score < Rat.divInt 9 10)).length,
           (filteredResults.filter (fun r => r.score < Rat.divInt 8 10)).length,
           dedupFirst (filteredResults.map (fun r => r.category)))
        { base with insights := some ins }

/-- The stop-word list of `extractKeywords` (lines 889-896). -/
def kwStopWords : List Str :=
  (["the", "and", "or", "but", "in", "on", "at", "to", "for", "of",
    "with", "by", "from", "as", "is", "was", "are", "were", "be",
    "been", "being", "have", "has", "had", "do", "does", "did",
    "will", "would", "could", "should", "may", "might", "must",
    "can", "shall"]).map String.toList

/-- `KnowledgeSearchTool.extractKeywords`. -/
def extractKeywords (query : Str) : List Str :=
  (((splitWs (toLowerS query)).filter (fun w => w.length > 2)).filter
    (fun w => !(kwStopWords.contains w)))

/-- `KnowledgeSearchTool.hashContent` (lines 929-931): lower-case,
collapse whitespace, trim, first 100 characters. -/
def hashContent (content : Str) : Str :=
  (jsTrim (collapseWs (toLowerS content))).take 100

/-- The loop of `deduplicateResults` with the `seen` set explicit. -/
def deduplicateGo : List SearchResult → List Str → List SearchResult
  | [], _ => []
  | r :: rest, seen =>
    let h := hashContent r.content
    if seen.contains h then deduplicateGo rest seen
    else r :: deduplicateGo rest (h :: seen)

/-- `KnowledgeSearchTool.deduplicateResults` (lines 911-924). -/
def deduplicateResults (results : List SearchResult) : List SearchResult :=
  deduplicateGo results []

/-- `KnowledgeSearchTool.getDaysSince` (lines 976-984); `none` is the
`NaN` produced by an unparseable timestamp. -/
def getDaysSince (env : JsDate) (timestamp : Str) : Option ℤ :=
  (env.ms timestamp).map (fun v => Int.fdiv (env.nowMs - v) 86400000)

/-- A search result together with its re-rank score. -/
structure Reranked where
  base : SearchResult
  rerankScore : ℚ
deriving DecidableEq

/-- `KnowledgeSearchTool.calculateRerankScore` (lines 948-971):
similarity, plus 0.1 per query word occurring in the content, plus
0.05 for content updated within 30 days, plus 0.05 for a source
containing `official`, clamped at 1.0. -/
def calculateRerankScore (env : JsDate) (result : SearchResult) (query : Str) : ℚ :=
  let queryLower := toLowerS query
  let contentLower := toLowerS result.content
  let exactMatches :=
    ((wordRuns queryLower).filter (fun w => jsIncludes contentLower w)).length
  let s1 := jsAdd result.score (jsMul (qn exactMatches) (Rat.divInt 1 10))
  let s2 :=
    if !result.timestamp.isEmpty then
      match getDaysSince env result.timestamp with
      | some d => if d < 30 then jsAdd s1 (Rat.divInt 5 100) else s1
      | none => s1
    else s1
  let s3 :=
    if !result.source.isEmpty && jsIncludes result.source "official".toList then
      jsAdd s2 (Rat.divInt 5 100)
    else s2
  jsMin s3 1

/-- `KnowledgeSearchTool.rerankResults` (lines 936-943):
`Array.prototype.sort` with the comparator
`b.rerankScore - a.rerankScore` is a stable sort ordered by descending
re-rank score, modelled by a stable insertion sort. -/
def rerankResults (env : JsDate) (results : List SearchResult) (originalQuery : Str) :
    List Reranked :=
  List.insertionSort (fun a b => b.rerankScore ≤ a.rerankScore)
    (results.map (fun r => ⟨r, calculateRerankScore env r originalQuery⟩))

/-- The comparison-word and conjunction tests of
`analyzeQueryComplexity` (word-boundary regexes, i.e. whole word
tokens). -/
def comparisonWords : List Str :=
  (["vs", "versus", "compare", "difference", "better", "worse"]).map String.toList

/-- `KnowledgeSearchTool.analyzeQueryComplexity` (lines 989-1002). -/
def analyzeQueryComplexity (query : Str) : Str :=
  let wordCount := (splitWs query).length
  let hasQuestions := query.contains '?'
  let lowRuns := wordRuns (toLowerS query)
  let hasComparisons := lowRuns.any (fun w => comparisonWords.contains w)
  let hasMultipleConcepts := lowRuns.any (fun w => w = "and".toList || w = "or".toList)
  if wordCount > 10 || hasComparisons || hasMultipleConcepts then "complex".toList
  else if wordCount > 5 || hasQuestions then "medium".toList
  else "simple".toList

/-- The `results.keyword` field of `executeAdvanced`: initialized to an
array, but the keyword branch assigns the whole result OBJECT of
`searchByKeywords` (which returns `this.execute(...)` unprojected). -/
inductive KwField
  | arr (l : List SearchResult)
  | obj (o : SearchOutput)
deriving DecidableEq

/-- JS array spread `[...x]`: spreading a non-iterable plain object
raises a `TypeError`. -/
def jsSpreadList : KwField → Except Str (List SearchResult)
  | KwField.arr l => Except.ok l
  | KwField.obj _ => Except.error "keywordResults is not iterable".toList

/-- The result object of `executeAdvanced`. -/
structure AdvOutput where
  semantic : List SearchResult
  keyword : KwField
  combined : List Reranked
  strategiesUsed : List Str
  totalUnique : Nat
  finalCount : Nat
  searchComplexity : Str
deriving DecidableEq

/-- `KnowledgeSearchTool.executeAdvanced` (lines 831-884): semantic and
keyword strategies, deduplication, re-ranking, top `topK`.  The catch
rethrows `Advanced search failed: ...` — advanced search propagates an
exception (modelled by `Except.error`) instead of returning a result
object. -/
def executeAdvanced (c : SearchCollab) (env : JsDate) (query : Str)
    (searchStrategies : List Str := ["semantic".toList, "keyword".toList])
    (topK : Nat := 10) (category : Option Str := none) : Except Str AdvOutput :=
  let semantic :=
    if searchStrategies.contains "semantic".toList then (execute c query topK category).results
    else []
  let keywordF :=
    if searchStrategies.contains "keyword".toList then
      KwField.obj (execute c (joinWith [' '] (extractKeywords query)) topK category)
    else KwField.arr []
  match jsSpreadList keywordF with
  | Except.error m => Except.error ("Advanced search failed: ".toList ++ m)
  | Except.ok kwList =>
    let allResults := semantic ++ kwList
    let uniqueResults := deduplicateResults allResults
    let combined := (rerankResults env uniqueResults query).take topK
    Except.ok
      { semantic := semantic
        keyword := keywordF
        combined := combined
        strategiesUsed := searchStrategies
        totalUnique := uniqueResults.length
        finalCount := combined.length
        searchComplexity := analyzeQueryComplexity query }

end KnowledgeSearchTool

/-! ## Knowledge management tool (`knowledgeManagementTool.ts`, first
compilation unit: class `KnowledgeManagementTool`) -/

namespace KnowledgeManagementTool

/-- One step of the 32-bit string hash of
`KnowledgeManagementTool.hashContent`:
`hash = ((hash << 5) - hash) + charCode; hash = hash & hash`. -/
def hashStep (h : ℤ) (c : Char) : ℤ :=
  toInt32 (toInt32 (h * 32) - h + c.toNat)

/-- `KnowledgeManagementTool.hashContent` (lines 632-644): hash of the
lower-cased, whitespace-collapsed, trimmed content, rendered in
decimal. -/
def hashContent (content : Str) : Str :=
  let normalized := jsTrim (collapseWs (toLowerS content))
  intToStr (normalized.foldl hashStep 0)

/-- `KnowledgeManagementTool.isValidTimestamp` (lines 649-656):
`new Date(ts)` parses, and its year is greater than 2000 (a `Date`
oracle query). -/
def isValidTimestamp (env : JsDate) (timestamp : Str) : Bool :=
  env.yearOk timestamp

/-- JS `new Map(l.map(item => [item.id, item])).values()`: first
occurrence keeps its position, a later duplicate id overwrites the
value. -/
def uniqueById (l : List PineRec) : List PineRec :=
  (dedupFirst (l.map (fun r => r.id))).filterMap
    (fun k => l.reverse.find? (fun r => r.id = k))

/-- `KnowledgeManagementTool.sampleVectors` (lines 601-627): up to ten
randomized nearest-neighbor queries (the randomness is the `sample`
oracle), deduplicated by id and capped at `sampleSize`.  A store outage
makes the first query throw. -/
def sampleVectors (sample : Nat → List PineRec) (st : Pine) (sampleSize : Nat) :
    Except Str (List PineRec) × List PineEff :=
  match st.fail with
  | some m => (Except.error m, [PineEff.query])
  | none => (Except.ok ((uniqueById (sample sampleSize)).take sampleSize), [PineEff.query])

/-- The `options` object of `KnowledgeManagementTool.execute`, with the
per-operation destructuring defaults of the source.  `none` / `false`
model JS `undefined` for the optional fields. -/
structure MgmtOptions where
  title : Option Str := none
  newContent : Option Str := none
  newMetadata : Option Meta := none
  operation : Str := "replace".toList
  chunkIds : Option (List Str) := none
  category : Option Str := none
  source : Option Str := none
  confirmDeletion : Bool := false
  removeDuplicates : Bool := true
  removeEmptyChunks : Bool := true
  updateTimestamps : Bool := false
  dryRun : Bool := false
  includeStats : Bool := true
  limit : Option Nat := none
  sortBy : Str := "timestamp".toList
  sortOrder : Str := "desc".toList
  filters : Meta := []
  includeContent : Bool := false
deriving DecidableEq

/-- Truthiness of an optional string option. -/
def optTruthy : Option Str → Bool
  | some s => !s.isEmpty
  | none => false

/-- The statistics object of `getKnowledgeBaseStats` (its nested
`sizingInfo` / `qualityMetrics` objects are flattened into fields). -/
structure StatsData where
  totalVectors : Nat
  categories : List (Str × ℤ)
  sources : List (Str × ℤ)
  timeDistribution : List (Str × Nat)
  averageChunkSize : ℤ
  totalContent : Nat
  documentsWithMetadata : Nat
  averageWordsPerChunk : ℤ
  lastUpdated : Str
deriving DecidableEq

/-- Accumulator of the tabulation `forEach` of `getKnowledgeBaseStats`. -/
structure StatsAcc where
  categories : List (Str × Nat)
  sources : List (Str × Nat)
  timeDistribution : List (Str × Nat)
  totalContent : Nat
  wordSum : ℚ
  docsWithMeta : Nat
deriving DecidableEq

/-- One iteration of the tabulation loop of `getKnowledgeBaseStats`
(lines 132-156): category, source, and month histograms, content-size
and word-count accumulation, metadata-richness count. -/
def statsStep (env : JsDate) (a : StatsAcc) (v : PineRec) : StatsAcc :=
  let catKey := getStrD v.metadata "category".toList "Unknown".toList
  let srcKey := getStrD v.metadata "source".toList "Unknown".toList
  let a1 := { a with categories := bumpCount a.categories catKey }
  let a2 := { a1 with sources := bumpCount a1.sources srcKey }
  let a3 :=
    match getStr v.metadata "timestamp".toList with
    | some ts =>
      if ts.isEmpty then a2
      else { a2 with timeDistribution := bumpCount a2.timeDistribution (env.monthKey ts) }
    | none => a2
  let a4 :=
    match getStr v.metadata "content".toList with
    | some ct =>
      if ct.isEmpty then a3
      else
        { a3 with
            totalContent := a3.totalContent + ct.length
            wordSum := jsAdd a3.wordSum
              (getNumD v.metadata "wordCount".toList (qn (splitWs ct).length)) }
    | none => a3
  if v.metadata.length > 3 then { a4 with docsWithMeta := a4.docsWithMeta + 1 } else a4

/-- Lookup in an association-list histogram (the observation
`distribution[key]` on the tabulated objects). -/
def histGet {α : Type} : List (Str × α) → Str → Option α
  | [], _ => none
  | (k1, v) :: rest, k => if k1 = k then some v else histGet rest k

/-- Adding `n` further occurrences to an optional histogram entry. -/
def addCnt : Option Nat → Nat → Option Nat
  | some v, n => some (v + n)
  | none, n => if n = 0 then none else some n

/-- The category key a record contributes to the category histogram. -/
def catKeyOf (v : PineRec) : Str := getStrD v.metadata "category".toList "Unknown".toList

/-- The source key a record contributes to the source histogram. -/
def srcKeyOf (v : PineRec) : Str := getStrD v.metadata "source".toList "Unknown".toList

/-- The month key a record contributes to the time histogram:
`timestamp.substring(0, 7)` of a truthy timestamp field. -/
def tdKeyOf (env : JsDate) (v : PineRec) : Option Str :=
  match getStr v.metadata "timestamp".toList with
  | some ts => if ts.isEmpty then none else some (env.monthKey ts)
  | none => none

/-- The extrapolation `Math.round(count * (totalVectors / sampleResults.length))`
applied to the category and source histograms. -/
def scaleCount (total len cnt : Nat) : ℤ := jsRound (jsMul (qn cnt) (jsDivQ (qn total) (qn len)))

/-- `KnowledgeManagementTool.getKnowledgeBaseStats` (lines 102-175).
`getIndexStats` swallows a store outage into `{totalVectorCount: 0}`
(pineconeHelper.ts, lines 99-107), so a failing store takes the
`totalVectors === 0` early return.  After tabulating over the sample,
only the category and source histograms are scaled by
`totalVectors / sampleResults.length`; `timeDistribution` is returned
as raw sample counts. -/
def getKnowledgeBaseStats (env : JsDate) (sample : Nat → List PineRec) (st : Pine)
    (_options : MgmtOptions) : Except Str StatsData × List PineEff :=
  let total := match st.fail with | some _ => 0 | none => st.recs.length
  if total = 0 then
    (Except.ok
      { totalVectors := 0
        categories := []
        sources := []
        timeDistribution := []
        averageChunkSize := 0
        totalContent := 0
        documentsWithMetadata := 0
        averageWordsPerChunk := 0
        lastUpdated := env.nowIso }, [PineEff.statsCall])
  else
    let sampleSize := min 1000 total
    match sampleVectors sample st sampleSize with
    | (Except.error m, effs) => (Except.error m, PineEff.statsCall :: effs)
    | (Except.ok sampleResults, effs) =>
      let acc := sampleResults.foldl (statsStep env) ⟨[], [], [], 0, 0, 0⟩
      let len := sampleResults.length
      let scale := jsDivQ (qn total) (qn len)
      (Except.ok
        { totalVectors := total
          categories := acc.categories.map (fun p => (p.1, jsRound (jsMul (qn p.2) scale)))
          sources := acc.sources.map (fun p => (p.1, jsRound (jsMul (qn p.2) scale)))
          timeDistribution := acc.timeDistribution
          averageChunkSize := if len > 0 then jsRound (jsDivQ (qn acc.totalContent) (qn len)) else 0
          totalContent := acc.totalContent
          documentsWithMetadata := acc.docsWithMeta
          averageWordsPerChunk := if len > 0 then jsRound (jsDivQ acc.wordSum (qn len)) else 0
          lastUpdated := env.nowIso }, PineEff.statsCall :: effs)

/-- A synthetic per-document summary built by `listDocuments`. -/
structure DocSummary where
  title : Str
  category : Str
  source : Str
  timestamp : Str
  totalChunks : ℚ
  wordCount : ℚ
  chunkIds : List Str
deriving DecidableEq

/-- One iteration of the grouping `forEach` of `listDocuments` (lines
212-230): group matches by title (Map insertion order), collecting
chunk ids and summing word counts. -/
def listGroupStep (m : List DocSummary) (r : PineRec) : List DocSummary :=
  let t := getStrD r.metadata "title".toList "Unknown".toList
  if m.any (fun d => d.title = t) then
    m.map (fun d =>
      if d.title = t then
        { d with
            chunkIds := d.chunkIds ++ [r.id]
            wordCount := jsAdd d.wordCount (getNumD r.metadata "wordCount".toList 0) }
      else d)
  else
    m ++ [{ title := t
            category := getStrD r.metadata "category".toList "Unknown".toList
            source := getStrD r.metadata "source".toList "Unknown".toList
            timestamp := getStrD r.metadata "timestamp".toList "Unknown".toList
            totalChunks := getNumD r.metadata "totalChunks".toList 1
            wordCount := getNumD r.metadata "wordCount".toList 0
            chunkIds := [r.id] }]

/-- Code-point lexicographic comparison (the model of
`String.prototype.localeCompare` for the ASCII data at hand). -/
def cmpStr : Str → Str → ℤ
  | [], [] => 0
  | [], _ :: _ => -1
  | _ :: _, [] => 1
  | a :: xs, b :: ys => if a = b then cmpStr xs ys else if a < b then -1 else 1

/-- The sort comparator of `listDocuments` (lines 235-253); for the
timestamp sort an unparseable date gives `NaN`, which
`Array.prototype.sort` treats as `0`. -/
def listCompare (env : JsDate) (sortBy : Str) (a b : DocSummary) : ℤ :=
  if sortBy = "title".toList then cmpStr a.title b.title
  else if sortBy = "category".toList then cmpStr a.category b.category
  else if sortBy = "timestamp".toList then
    match env.ms a.timestamp, env.ms b.timestamp with
    | some x, some y => x - y
    | _, _ => 0
  else 0

/-- The metadata equality filter `{key: {$eq: v}}` (skipped for a falsy
option, as in the source). -/
def eqFilt (v : Option Str) (key : Str) (md : Meta) : Bool :=
  match v with
  | some s => if s.isEmpty then true else decide (jsGet md key = some (MVal.s s))
  | none => true

/-- Result object of `listDocuments`. -/
structure ListData where
  documents : List DocSummary
  totalFound : Nat
  hasMore : Bool
  filterCategory : Option Str
  filterSource : Option Str
  sortBy : Str
  sortOrder : Str
deriving DecidableEq

/-- `KnowledgeManagementTool.listDocuments` (lines 180-262): one
placeholder-vector query over-fetching `min(limit, 10000)`, grouping by
title, a stable sort by the requested key and order, and pagination. -/
def listDocuments (env : JsDate) (st : Pine) (options : MgmtOptions) :
    Except Str ListData × List PineEff :=
  let limit := options.limit.getD 50
  let filt := fun md =>
    eqFilt options.category "category".toList md && eqFilt options.source "source".toList md
  match pineQueryRecs st (min limit 10000) filt with
  | Except.error m => (Except.error m, [PineEff.query])
  | Except.ok ms =>
    let documents := ms.foldl listGroupStep []
    let sorted := List.insertionSort
      (fun a b =>
        (if options.sortOrder = "desc".toList then -(listCompare env options.sortBy a b)
         else listCompare env options.sortBy a b) ≤ 0) documents
    (Except.ok
      { documents := sorted.take limit
        totalFound := sorted.length
        hasMore := sorted.length > limit
        filterCategory := options.category
        filterSource := options.source
        sortBy := options.sortBy
        sortOrder := options.sortOrder }, [PineEff.query])

end KnowledgeManagementTool

namespace KnowledgeManagementTool

/-- The title equality filter `{title: {$eq: t}}`. -/
def titleFilt (t : Str) (md : Meta) : Bool :=
  decide (jsGet md "title".toList = some (MVal.s t))

/-- The category equality filter `{category: {$eq: c}}`. -/
def catFilt (c : Str) (md : Meta) : Bool :=
  decide (jsGet md "category".toList = some (MVal.s c))

/-- The two result shapes of `updateDocument`. -/
inductive UpdateData
  | metadataOnly (chunksUpdated : Nat) (updatedFields : List Str)
  | reindexed (operation : Str) (oldChunksDeleted : Nat) (newChunksCreated : Nat)
      (success : Bool)
deriving DecidableEq

/-- `KnowledgeManagementTool.updateDocument` (lines 267-341): find the
chunks of the title (`ErrNotFound` when none), then either patch the
metadata of every chunk in place (`metadata-only` mode, each patch
being `{...match.metadata, ...newMetadata, lastUpdated: now}`), or
delete all chunks and re-run the document index tool on the new
content with the merged metadata. -/
def updateDocument (env : JsDate) (ic : IndexCollab) (st : Pine) (options : MgmtOptions) :
    Except Str UpdateData × Pine × List PineEff :=
  let t := options.title.getD []
  match pineQueryRecs st 10000 (titleFilt t) with
  | Except.error m => (Except.error m, st, [PineEff.query])
  | Except.ok existing =>
    if existing.isEmpty then
      (Except.error ("Document \"".toList ++ t ++ "\" not found".toList), st, [PineEff.query])
    else
      let chunkIds := existing.map (fun r => r.id)
      if options.operation == "metadata-only".toList && options.newMetadata.isSome then
        let nm := options.newMetadata.getD []
        let updates := existing.map (fun r =>
          (r.id, spreadMerge (spreadMerge r.metadata nm)
            [("lastUpdated".toList, MVal.s env.nowIso)]))
        match safeUpdate st updates with
        | Except.error m => (Except.error m, st, [PineEff.query, PineEff.updateMeta updates.length])
        | Except.ok st2 =>
          (Except.ok (UpdateData.metadataOnly updates.length (metaKeys nm)), st2,
            [PineEff.query, PineEff.updateMeta updates.length])
      else
        match options.newContent with
        | some nc =>
          match safeDelete st chunkIds with
          | Except.error m => (Except.error m, st, [PineEff.query, PineEff.deleteIds chunkIds])
          | Except.ok st2 =>
            let existingMetadata := ((existing.head?).map (fun r => r.metadata)).getD []
            let finalMetadata := spreadMerge existingMetadata (options.newMetadata.getD [])
            let ir := DocumentIndexTool.execute ic st2 nc t
              (getStrD finalMetadata "category".toList "General".toList)
              (getStrD finalMetadata "source".toList "Updated".toList) none
              { chunkSize := 1000
                chunkOverlap := 200
                extractMetadata := true
                validateContent := false }
            (Except.ok (UpdateData.reindexed options.operation chunkIds.length
              ir.1.chunksIndexed ir.1.success), ir.2.1,
              [PineEff.query, PineEff.deleteIds chunkIds] ++ ir.2.2)
        | none =>
          (Except.error "Either newContent or newMetadata must be provided".toList, st,
            [PineEff.query])

/-- Result object of `deleteDocument`. -/
structure DeleteData where
  deletedCount : Nat
  deletedItems : Str := []
  message : Str
deriving DecidableEq

/-- The tail of `deleteDocument` once the target id set is resolved:
an empty resolution is zero deletions (no store mutation), otherwise a
`safeDelete`. -/
def deleteResolved (st : Pine) (options : MgmtOptions) (idsToDelete : List Str)
    (effs : List PineEff) : Except Str DeleteData × Pine × List PineEff :=
  if idsToDelete.isEmpty then
    (Except.ok
      { deletedCount := 0
        message := "No matching documents found to delete".toList }, st, effs)
  else
    match safeDelete st idsToDelete with
    | Except.error m => (Except.error m, st, effs ++ [PineEff.deleteIds idsToDelete])
    | Except.ok st2 =>
      (Except.ok
        { deletedCount := idsToDelete.length
          deletedItems :=
            (match options.title with
             | some t =>
               if !t.isEmpty then "document \"".toList ++ t ++ "\"".toList
               else
                 match options.category with
                 | some c =>
                   if !c.isEmpty then "category \"".toList ++ c ++ "\"".toList
                   else "specified chunks".toList
                 | none => "specified chunks".toList
             | none =>
               match options.category with
               | some c =>
                 if !c.isEmpty then "category \"".toList ++ c ++ "\"".toList
                 else "specified chunks".toList
               | none => "specified chunks".toList)
          message := "Successfully deleted ".toList ++ natToStr idsToDelete.length ++
            " chunks".toList }, st2, effs ++ [PineEff.deleteIds idsToDelete])

/-- `KnowledgeManagementTool.deleteDocument` (lines 346-401): the
confirmation gate comes first — without `confirmDeletion: true` the
operation throws before any store query or mutation.  The target id
set comes from an explicit id list, else a title filter, else a
category filter. -/
def deleteDocument (st : Pine) (options : MgmtOptions) :
    Except Str DeleteData × Pine × List PineEff :=
  if !options.confirmDeletion then
    (Except.error "Deletion requires explicit confirmation. Set confirmDeletion: true".toList,
      st, [])
  else
    match options.chunkIds with
    | some ids => deleteResolved st options ids []
    | none =>
      if optTruthy options.title then
        match pineQueryRecs st 10000 (titleFilt (options.title.getD [])) with
        | Except.error m => (Except.error m, st, [PineEff.query])
        | Except.ok chunks => deleteResolved st options (chunks.map (fun r => r.id)) [PineEff.query]
      else if optTruthy options.category then
        match pineQueryRecs st 10000 (catFilt (options.category.getD [])) with
        | Except.error m => (Except.error m, st, [PineEff.query])
        | Except.ok chunks => deleteResolved st options (chunks.map (fun r => r.id)) [PineEff.query]
      else
        (Except.error "Either title, chunkIds, or category must be specified".toList, st, [])

/-- Result object of `cleanupKnowledgeBase`. -/
structure CleanupData where
  duplicatesFound : Nat := 0
  duplicatesRemoved : Nat := 0
  emptyChunksFound : Nat := 0
  emptyChunksRemoved : Nat := 0
  timestampsUpdated : Nat := 0
  errors : List Str := []
deriving DecidableEq

/-- The empty-chunk test of the cleanup pass:
`!v.metadata?.content || v.metadata.content.trim().length < 10`. -/
def isEmptyChunk (v : PineRec) : Bool :=
  match getStr v.metadata "content".toList with
  | some ct => ct.isEmpty || (jsTrim ct).length < 10
  | none => true

/-- The duplicate-collection loop of `cleanupKnowledgeBase` (lines
448-462) with the `contentHashes` key set explicit: a record whose
(truthy) content hash was already seen is a duplicate; the first
occurrence registers the hash. -/
def dupIdsGo : List PineRec → List Str → List Str
  | [], _ => []
  | v :: rest, seen =>
    match getStr v.metadata "content".toList with
    | some ct =>
      if ct.isEmpty then dupIdsGo rest seen
      else
        let h := hashContent ct
        if seen.contains h then v.id :: dupIdsGo rest seen
        else dupIdsGo rest (h :: seen)
    | none => dupIdsGo rest seen

/-- The content hash a record contributes to the duplicate scan: only
truthy content registers (`metadata?.content` must be a non-empty
string). -/
def dupKey (v : PineRec) : Option Str :=
  match getStr v.metadata "content".toList with
  | some ct => if ct.isEmpty then none else some (hashContent ct)
  | none => none

/-- `safeDelete` on the no-outage path (`fail = none`, established by
the successful sampling that precedes every cleanup mutation). -/
def safeDeleteOk (st : Pine) (ids : List Str) : Pine :=
  { st with recs := st.recs.filter (fun r => !(ids.contains r.id)) }

/-- `safeUpdate` on the no-outage path. -/
def safeUpdateOk (st : Pine) (updates : List (Str × Meta)) : Pine :=
  { st with recs := updates.foldl applyPatch st.recs }

/-- `KnowledgeManagementTool.cleanupKnowledgeBase` (lines 406-501):
sample up to 5000 records, then (a) remove sampled chunks with missing
or sub-10-character content, (b) remove later occurrences of a
duplicated content hash, (c) backfill invalid timestamps; `dryRun`
counts without mutating.  The internal `try/catch` converts a failure
into a `CleanupData` carrying the message — cleanup never throws. -/
def cleanupKnowledgeBase (env : JsDate) (sample : Nat → List PineRec) (st : Pine)
    (options : MgmtOptions) : CleanupData × Pine × List PineEff :=
  match sampleVectors sample st 5000 with
  | (Except.error m, effs) =>
    ({ errors := ["Cleanup failed: ".toList ++ m] }, st, effs)
  | (Except.ok vectors, effs) =>
    let emptyChunks := if options.removeEmptyChunks then vectors.filter isEmptyChunk else []
    let doEmptyDelete := options.removeEmptyChunks && !options.dryRun && !emptyChunks.isEmpty
    let emptyIds := emptyChunks.map (fun v => v.id)
    let st1 := if doEmptyDelete then safeDeleteOk st emptyIds else st
    let e1 : List PineEff := if doEmptyDelete then [PineEff.deleteIds emptyIds] else []
    let dups := if options.removeDuplicates then dupIdsGo vectors [] else []
    let doDupDelete := options.removeDuplicates && !options.dryRun && !dups.isEmpty
    let st2 := if doDupDelete then safeDeleteOk st1 dups else st1
    let e2 : List PineEff := if doDupDelete then [PineEff.deleteIds dups] else []
    let badTs :=
      if options.updateTimestamps then
        vectors.filter (fun v =>
          match getStr v.metadata "timestamp".toList with
          | some ts => ts.isEmpty || !isValidTimestamp env ts
          | none => true)
      else []
    let doTsUpdate := options.updateTimestamps && !options.dryRun && !badTs.isEmpty
    let updates := badTs.map (fun v =>
      (v.id, spreadMerge v.metadata
        [("timestamp".toList, MVal.s env.nowIso),
         ("cleanupUpdated".toList, MVal.b true)]))
    let st3 := if doTsUpdate then safeUpdateOk st2 updates else st2
    let e3 : List PineEff := if doTsUpdate then [PineEff.updateMeta updates.length] else []
    ({ duplicatesFound := dups.length
       duplicatesRemoved := if doDupDelete then dups.length else 0
       emptyChunksFound := emptyChunks.length
       emptyChunksRemoved := if doEmptyDelete then emptyIds.length else 0
       timestampsUpdated := badTs.length
       errors := [] }, st3, effs ++ e1 ++ e2 ++ e3)

/-- An in-progress category group of `getCategories` (the
`lastUpdated` field holds the Date object: source string plus parsed
milliseconds, `none` milliseconds for an invalid date). -/
structure CatEntry where
  name : Str
  count : Nat
  lastUpdated : Option (Str × Option ℤ)
  sources : List Str
deriving DecidableEq

/-- The per-record update of the grouping loop of `getCategories`. -/
def catBump (env : JsDate) (v : PineRec) (e : CatEntry) : CatEntry :=
  let e1 := { e with count := e.count + 1 }
  let e2 :=
    match getStr v.metadata "source".toList with
    | some s =>
      if s.isEmpty then e1
      else if e1.sources.contains s then e1
      else { e1 with sources := e1.sources ++ [s] }
    | none => e1
  match getStr v.metadata "timestamp".toList with
  | some ts =>
    if ts.isEmpty then e2
    else
      match e2.lastUpdated with
      | none => { e2 with lastUpdated := some (ts, env.ms ts) }
      | some (_, oldMs) =>
        match env.ms ts, oldMs with
        | some newMs, some oldv =>
          if oldv < newMs then { e2 with lastUpdated := some (ts, some newMs) } else e2
        | _, _ => e2
  | none => e2

/-- One iteration of the grouping `forEach` of `getCategories` (lines
514-539). -/
def catStep (env : JsDate) (m : List CatEntry) (v : PineRec) : List CatEntry :=
  let cat := getStrD v.metadata "category".toList "Unknown".toList
  let m1 :=
    if m.any (fun e => e.name = cat) then m
    else m ++ [{ name := cat, count := 0, lastUpdated := none, sources := [] }]
  m1.map (fun e => if e.name = cat then catBump env v e else e)

/-- A category summary as returned by `getCategories`. -/
structure CatOut where
  name : Str
  count : Nat
  sources : List Str
  lastUpdated : Option Str
  estimatedTotal : ℤ
deriving DecidableEq

/-- Result object of `getCategories`. -/
structure CatData where
  categories : List CatOut
  totalCategories : Nat
  sampledFrom : Nat
  totalVectors : Nat
deriving DecidableEq

/-- `KnowledgeManagementTool.getCategories` (lines 506-563): a
2000-record sample grouped by category with source sets and a
last-updated maximum, counts extrapolated by
`totalVectors / vectors.length` and sorted by descending estimate.
(The destructured `includeStats` option is never used by the source.) -/
def getCategories (env : JsDate) (sample : Nat → List PineRec) (st : Pine)
    (_options : MgmtOptions) : Except Str CatData × List PineEff :=
  match sampleVectors sample st 2000 with
  | (Except.error m, effs) => (Except.error m, effs)
  | (Except.ok vectors, effs) =>
    let entries := vectors.foldl (catStep env) []
    let total := st.recs.length
    let scale := if vectors.length > 0 then jsDivQ (qn total) (qn vectors.length) else 1
    let cats := entries.map (fun e =>
      ({ name := e.name
         count := e.count
         sources := e.sources
         lastUpdated := e.lastUpdated.map (fun p => env.toIso p.1)
         estimatedTotal := jsRound (jsMul (qn e.count) scale) } : CatOut))
    let sorted := List.insertionSort (fun a b : CatOut => b.estimatedTotal ≤ a.estimatedTotal) cats
    (Except.ok
      { categories := sorted
        totalCategories := cats.length
        sampledFrom := vectors.length
        totalVectors := total }, effs ++ [PineEff.statsCall])

/-- A raw hit of `searchByMetadata`. -/
structure MetaSearchHit where
  id : Str
  score : ℚ
  metadata : Meta
  content : Option Str
deriving DecidableEq

/-- Result object of `searchByMetadata`. -/
structure MetaSearchData where
  results : List MetaSearchHit
  totalFound : Nat
  hasMore : Bool
deriving DecidableEq

/-- The caller-supplied equality filter object of `searchByMetadata`
(`{field: {$eq: v}, ...}` conjunction). -/
def matchesFilters (filters : Meta) (md : Meta) : Bool :=
  filters.all (fun p => decide (jsGet md p.1 = some p.2))

/-- `KnowledgeManagementTool.searchByMetadata` (lines 568-596): a
placeholder-vector query with the supplied metadata filter, raw
score/metadata pass-through, content only on request. -/
def searchByMetadata (st : Pine) (options : MgmtOptions) :
    Except Str MetaSearchData × List PineEff :=
  let limit := options.limit.getD 100
  match pineQueryRecs st (min limit 10000) (matchesFilters options.filters) with
  | Except.error m => (Except.error m, [PineEff.query])
  | Except.ok rs =>
    let processed := rs.map (fun r =>
      ({ id := r.id
         score := r.score
         metadata := r.metadata
         content := if options.includeContent then getStr r.metadata "content".toList else none }
        : MetaSearchHit))
    (Except.ok
      { results := processed
        totalFound := processed.length
        hasMore := limit ≤ processed.length }, [PineEff.query])

/-- The `data` payload of a management result. -/
inductive MgmtData
  | stats (d : StatsData)
  | list (d : ListData)
  | update (d : UpdateData)
  | del (d : DeleteData)
  | cleanup (d : CleanupData)
  | categories (d : CatData)
  | metaSearch (d : MetaSearchData)
deriving DecidableEq

/-- The dispatch-contract result object
`{operation, success, data, message, errors}`. -/
structure MgmtResult where
  operation : Str
  success : Bool := false
  data : Option MgmtData := none
  message : Str := []
  errors : List Str := []
deriving DecidableEq

/-- The catch branch of `KnowledgeManagementTool.execute`. -/
def wrapErr (operation : Str) (m : Str) : MgmtResult :=
  { operation := operation
    success := false
    data := none
    message := "Failed to execute ".toList ++ operation
    errors := ["Operation failed: ".toList ++ m] }

/-- `KnowledgeManagementTool.execute` (lines 24-97): dispatch on the
operation tag; every thrown collaborator error is caught and encoded as
`success=false` with an `errors` entry; an unknown tag is a structured
failure.  The function is total — it always returns a result object. -/
def execute (env : JsDate) (ic : IndexCollab) (sample : Nat → List PineRec) (st : Pine)
    (operation : Str) (options : MgmtOptions := {}) : MgmtResult × Pine × List PineEff :=
  if operation = "stats".toList then
    match getKnowledgeBaseStats env sample st options with
    | (Except.error m, effs) => (wrapErr operation m, st, effs)
    | (Except.ok d, effs) =>
      ({ operation := operation
         success := true
         data := some (MgmtData.stats d)
         message := "Knowledge base statistics retrieved successfully".toList }, st, effs)
  else if operation = "list".toList then
    match listDocuments env st options with
    | (Except.error m, effs) => (wrapErr operation m, st, effs)
    | (Except.ok d, effs) =>
      ({ operation := operation
         success := true
         data := some (MgmtData.list d)
         message := "Found ".toList ++ natToStr d.documents.length ++ " documents".toList },
        st, effs)
  else if operation = "update".toList then
    match updateDocument env ic st options with
    | (Except.error m, st2, effs) => (wrapErr operation m, st2, effs)
    | (Except.ok d, st2, effs) =>
      ({ operation := operation
         success := true
         data := some (MgmtData.update d)
         message := "Document updated successfully".toList }, st2, effs)
  else if operation = "delete".toList then
    match deleteDocument st options with
    | (Except.error m, st2, effs) => (wrapErr operation m, st2, effs)
    | (Except.ok d, st2, effs) =>
      ({ operation := operation
         success := true
         data := some (MgmtData.del d)
         message := "Document deleted successfully".toList }, st2, effs)
  else if operation = "cleanup".toList then
    match cleanupKnowledgeBase env sample st options with
    | (d, st2, effs) =>
      ({ operation := operation
         success := true
         data := some (MgmtData.cleanup d)
         message := "Knowledge base cleanup completed".toList }, st2, effs)
  else if operation = "categories".toList then
    match getCategories env sample st options with
    | (Except.error m, effs) => (wrapErr operation m, st, effs)
    | (Except.ok d, effs) =>
      ({ operation := operation
         success := true
         data := some (MgmtData.categories d)
         message := "Categories retrieved successfully".toList }, st, effs)
  else if operation = "search-by-metadata".toList then
    match searchByMetadata st options with
    | (Except.error m, effs) => (wrapErr operation m, st, effs)
    | (Except.ok d, effs) =>
      ({ operation := operation
         success := true
         data := some (MgmtData.metaSearch d)
         message := "Found ".toList ++ natToStr d.results.length ++
           " matching documents".toList }, st, effs)
  else
    ({ operation := operation
       success := false
       data := none
       message := "Invalid operation specified".toList
       errors := ["Unknown operation: ".toList ++ operation] }, st, [])

end KnowledgeManagementTool

/-- Decidable equality of `Except` results, for concrete evaluations. -/
instance {e a : Type} [DecidableEq e] [DecidableEq a] : DecidableEq (Except e a) :=
  fun x y =>
  match x, y with
  | .error e1, .error e2 =>
    if h : e1 = e2 then isTrue (by rw [h]) else isFalse (by intro hh; cases hh; exact h rfl)
  | .error e1, .ok a2 => isFalse (by intro hh; cases hh)
  | .ok a1, .error e2 => isFalse (by intro hh; cases hh)
  | .ok a1, .ok a2 =>
    if h : a1 = a2 then isTrue (by rw [h]) else isFalse (by intro hh; cases hh; exact h rfl)

/-! ## Concrete instances used by witnesses and counterexamples -/

/-- A `Date` oracle for concrete evaluations. -/
def wDate : JsDate :=
  { ms := fun _ => none
    yearOk := fun _ => false
    monthKey := fun _ => "2024-01".toList
    toIso := fun s => s
    nowMs := 0
    nowIso := "2024-06-01T00:00:00.000Z".toList }

/-- An index-tool collaborator whose file adapter and embedding service
always succeed. -/
def wIndexCollab : IndexCollab :=
  { processFile := fun _ =>
      { success := true, content := "file text".toList, metadata := [], errors := [] }
    createEmbedding := fun _ => Except.ok [1]
    nowIso := "2024-06-01T00:00:00.000Z".toList
    nowMs := 7 }

/-- A store in the collaborator-outage state. -/
def brokenPine : Pine := { recs := [], fail := some "boom".toList }

/-- Three store matches with integer-valued scores 2, 1, 0. -/
def wSearchMatches : List PineRec :=
  [{ id := "a".toList, score := 2,
     metadata := [("content".toList, MVal.s "alpha beta".toList),
                  ("title".toList, MVal.s "Doc".toList)] },
   { id := "b".toList, score := 1,
     metadata := [("content".toList, MVal.s "gamma".toList)] },
   { id := "c".toList, score := 0, metadata := [] }]

/-- A search collaborator returning `wSearchMatches` for every query. -/
def wSearchCollab : SearchCollab :=
  { embed := fun _ => Except.ok [1]
    query := fun _ _ _ => Except.ok wSearchMatches }

/-- The processed form of the score-2 match of `wSearchMatches`. -/
def wResultA : SearchResult :=
  KnowledgeSearchTool.toSearchResult
    { id := "a".toList, score := 2,
      metadata := [("content".toList, MVal.s "alpha beta".toList),
                   ("title".toList, MVal.s "Doc".toList)] }

/-- Two sampled records: both of category `X`, with truthy timestamps. -/
def wStatsSampleRecs : List PineRec :=
  [{ id := "s1".toList
     metadata := [("category".toList, MVal.s "X".toList),
                  ("timestamp".toList, MVal.s "2024-01-02T00:00:00.000Z".toList)] },
   { id := "s2".toList
     metadata := [("category".toList, MVal.s "X".toList),
                  ("timestamp".toList, MVal.s "2024-01-03T00:00:00.000Z".toList)] }]

/-- A sampling oracle returning the two records of `wStatsSampleRecs`. -/
def wStatsSample : Nat → List PineRec := fun _ => wStatsSampleRecs

/-- A healthy store holding four vectors. -/
def wStatsStore : Pine :=
  { recs := [{ id := "v1".toList, metadata := [] }, { id := "v2".toList, metadata := [] },
             { id := "v3".toList, metadata := [] }, { id := "v4".toList, metadata := [] }]
    fail := none }

/-- A three-chunk store: two chunks of the document `Doc` and one
other document, with distinct ids. -/
def wUpd2Store : Pine :=
  { recs := [{ id := "d1".toList
               metadata := [("title".toList, MVal.s "Doc".toList),
                            ("content".toList, MVal.s "one".toList)] },
             { id := "d2".toList
               metadata := [("title".toList, MVal.s "Doc".toList),
                            ("content".toList, MVal.s "two".toList)] },
             { id := "x1".toList
               metadata := [("title".toList, MVal.s "Other".toList)] }]
    fail := none }

/-- A metadata-only update of `Doc` setting a new category. -/
def wUpd2Opts : KnowledgeManagementTool.MgmtOptions :=
  { title := some "Doc".toList
    operation := "metadata-only".toList
    newMetadata := some [("category".toList, MVal.s "Updated".toList)] }

/-- A hostile metadata-only update carrying `content` and `lastUpdated`
keys in the new metadata. -/
def wUpdHijackOpts : KnowledgeManagementTool.MgmtOptions :=
  { title := some "Doc".toList
    operation := "metadata-only".toList
    newMetadata := some [("content".toList, MVal.s "HIJACKED".toList),
                         ("lastUpdated".toList, MVal.s "1999-01-01".toList)] }

/-- A one-chunk store for the hostile update. -/
def wUpd1Store : Pine :=
  { recs := [{ id := "d1".toList
               metadata := [("title".toList, MVal.s "Doc".toList),
                            ("content".toList, MVal.s "original".toList)] }]
    fail := none }

/-- The descending re-rank comparator is total. -/
instance : IsTotal KnowledgeSearchTool.Reranked
    (fun a b => b.rerankScore ≤ a.rerankScore) :=
  ⟨fun a b => le_total b.rerankScore a.rerankScore⟩

/-- The descending re-rank comparator is transitive. -/
instance : IsTrans KnowledgeSearchTool.Reranked
    (fun a b => b.rerankScore ≤ a.rerankScore) :=
  ⟨fun _ _ _ h1 h2 => le_trans h2 h1⟩

/-- The advanced-search output on a semantic-only strategy list (the
default strategy list throws). -/
def wAdvOut : KnowledgeSearchTool.AdvOutput :=
  (KnowledgeSearchTool.executeAdvanced wSearchCollab wDate "alpha".toList
      ["semantic".toList] 5 none).toOption.getD
    { semantic := []
      keyword := KnowledgeSearchTool.KwField.arr []
      combined := []
      strategiesUsed := []
      totalUnique := 0
      finalCount := 0
      searchComplexity := [] }

/-- Two records with identical long content and one distinct record. -/
def wDupA : PineRec :=
  { id := "a1".toList, metadata := [("content".toList, MVal.s "duplicate text here".toList)] }

/-- The second occurrence of the duplicated content. -/
def wDupB : PineRec :=
  { id := "b1".toList, metadata := [("content".toList, MVal.s "duplicate text here".toList)] }

/-- A record with different content. -/
def wDupC : PineRec :=
  { id := "c1".toList, metadata := [("content".toList, MVal.s "another chunk body".toList)] }

/-- A healthy store holding the three records. -/
def wDupStore : Pine := { recs := [wDupA, wDupB, wDupC], fail := none }

/-- A sampling oracle returning the three records. -/
def wDupSample : Nat → List PineRec := fun _ => [wDupA, wDupB, wDupC]

/-- Two records with identical SHORT content (trimmed length < 10). -/
def wShortA : PineRec :=
  { id := "sa".toList, metadata := [("content".toList, MVal.s "dup".toList)] }

/-- The second short duplicate. -/
def wShortB : PineRec :=
  { id := "sb".toList, metadata := [("content".toList, MVal.s "dup".toList)] }

/-- A healthy store holding only the two short duplicates. -/
def wShortStore : Pine := { recs := [wShortA, wShortB], fail := none }

/-- A sampling oracle returning the two short duplicates. -/
def wShortSample : Nat → List PineRec := fun _ => [wShortA, wShortB]

/-! ## Bridge lemmas: the kernel-reducible arithmetic agrees with Mathlib -/

theorem jsAdd_eq (a b : ℚ) : jsAdd a b = a + b := by
  rw [jsAdd, ← Rat.num_divInt_den a, ← Rat.num_divInt_den b,
    Rat.divInt_add_divInt _ _ (by positivity) (by positivity)]
  simp [Rat.num_divInt_den]

theorem jsMul_eq (a b : ℚ) : jsMul a b = a * b := by
  rw [jsMul]
  conv_rhs => rw [← Rat.num_divInt_den a, ← Rat.num_divInt_den b]
  rw [Rat.divInt_mul_divInt _ _ (by positivity) (by positivity)]

theorem jsDivQ_eq (a b : ℚ) : jsDivQ a b = a / b := (Rat.div_def' a b).symm

theorem jsMin_eq (a b : ℚ) : jsMin a b = min a b := by
  rw [jsMin, min_def]

theorem jsFloorQ_eq (q : ℚ) : jsFloorQ q = ⌊q⌋ := by
  rw [jsFloorQ, Rat.floor_def, Int.fdiv_eq_ediv _ (by positivity)]

theorem jsRound_eq (q : ℚ) : jsRound q = ⌊q + 1 / 2⌋ := by
  rw [jsRound, jsFloorQ_eq, jsAdd_eq, Rat.divInt_eq_div]
  norm_num

theorem qn_eq (n : Nat) : qn n = (n : ℚ) := by
  rw [qn, Rat.divInt_one]
  norm_num

/-! ## Frame lemmas for the effect traces -/

theorem embedAll_effs_shape (c : IndexCollab) (l : List Str) :
    ∀ e ∈ (embedAll c l).2, ∃ t, e = PineEff.embedText t := by
  induction l with
  | nil => simp [embedAll]
  | cons ch rest ih =>
    simp only [embedAll]
    cases c.createEmbedding ch with
    | error m => simp
    | ok e =>
      intro x hx
      rcases List.mem_cons.mp hx with h | h
      · exact ⟨ch, h⟩
      · exact ih x h

theorem upsertAll_effs_shape (st : Pine) (vecs : List PineRec) :
    ∀ e ∈ (upsertAll st vecs).2, ∃ n, e = PineEff.upsert n := by
  unfold upsertAll
  split
  · simp
  · cases st.fail with
    | some m => simp
    | none =>
      intro e he
      rcases List.mem_map.mp he with ⟨b, -, hb⟩
      exact ⟨b.length, hb.symm⟩

theorem embedUpsert_no_fileRead (c : IndexCollab) (st : Pine) (base : IndexResult)
    (chunks : List Str) (bv : List (List ℚ) → List PineRec) (p : Str) :
    PineEff.fileRead p ∉ (DocumentIndexTool.embedUpsert c st base chunks bv).2.2 := by
  unfold DocumentIndexTool.embedUpsert
  have h1 := embedAll_effs_shape c chunks
  rcases hE : embedAll c chunks with ⟨rE, effs1⟩
  rw [hE] at h1
  simp only at h1
  cases rE with
  | error m =>
    intro hmem
    simp only at hmem
    rcases h1 _ hmem with ⟨t0, ht⟩
    cases ht
  | ok embeddings =>
    dsimp only
    have h2 := upsertAll_effs_shape st (bv embeddings)
    rcases hU : upsertAll st (bv embeddings) with ⟨rU, effs2⟩
    rw [hU] at h2
    simp only at h2
    cases rU with
    | error m =>
      intro hmem
      simp only at hmem
      rcases List.mem_append.mp hmem with h | h
      · rcases h1 _ h with ⟨t0, ht⟩; cases ht
      · rcases h2 _ h with ⟨n, hn⟩; cases hn
    | ok st2 =>
      intro hmem
      simp only at hmem
      rcases List.mem_append.mp hmem with h | h
      · rcases h1 _ h with ⟨t0, ht⟩; cases ht
      · rcases h2 _ h with ⟨n, hn⟩; cases hn

theorem executeStage2_no_fileRead (c : IndexCollab) (st : Pine)
    (dc t cat src : Str) (fi : Option Meta) (w0 : List Str)
    (opts : IndexOptions) (p : Str) :
    PineEff.fileRead p ∉ (DocumentIndexTool.executeStage2 c st dc t cat src fi w0 opts).2.2 := by
  unfold DocumentIndexTool.executeStage2
  dsimp only
  by_cases hemp : (intelligentChunking dc
      (if opts.chunkSize = 0 then 1000 else opts.chunkSize)
      (if opts.chunkOverlap = 0 then 200 else opts.chunkOverlap)).isEmpty = true
  · rw [if_pos hemp]
    simp
  · rw [if_neg hemp]
    apply embedUpsert_no_fileRead

theorem executeValidated_no_fileRead (c : IndexCollab) (st : Pine)
    (dc t cat src : Str) (fi : Option Meta) (opts : IndexOptions) (p : Str) :
    PineEff.fileRead p ∉ (DocumentIndexTool.executeValidated c st dc t cat src fi opts).2.2 := by
  unfold DocumentIndexTool.executeValidated
  dsimp only
  split
  · split
    · split
      · simp
      · apply executeStage2_no_fileRead
    · apply executeStage2_no_fileRead
  · apply executeStage2_no_fileRead

/-! ## C10 -/

/-- C10: when ingest is called with non-empty inline content, the file
adapter is never consulted and the run is identical to one with no
`filePath` at all (the inline content is used verbatim); the file
adapter is consulted exactly when `filePath` is supplied (and truthy)
and the inline content is empty. -/
theorem C10_inline_content_bypasses_file (c : IndexCollab) (st : Pine)
    (content title category source : Str) (filePath : Option Str) (opts : IndexOptions) :
    ((∃ p, PineEff.fileRead p ∈
        (DocumentIndexTool.execute c st content title category source filePath opts).2.2) ↔
      (content = [] ∧ ∃ p, filePath = some p ∧ p ≠ [])) ∧
    (content ≠ [] →
      DocumentIndexTool.execute c st content title category source filePath opts =
        DocumentIndexTool.execute c st content title category source none opts) := by
  constructor
  · unfold DocumentIndexTool.execute
    cases filePath with
    | none =>
      dsimp only
      constructor
      · rintro ⟨q, hq⟩
        exact absurd hq (executeValidated_no_fileRead c st content title category source none opts q)
      · rintro ⟨-, q, hq, -⟩
        cases hq
    | some p =>
      dsimp only
      by_cases hp : p.isEmpty
      · have hcond : (!p.isEmpty && content.isEmpty) = false := by simp [hp]
        rw [hcond]
        simp only [Bool.false_eq_true, if_false]
        constructor
        · rintro ⟨q, hq⟩
          exact absurd hq
            (executeValidated_no_fileRead c st content title category source none opts q)
        · rintro ⟨-, q, hq, hne⟩
          cases hq
          simp only [List.isEmpty_iff] at hp
          exact absurd hp hne
      · by_cases hc : content.isEmpty
        · have hcond : (!p.isEmpty && content.isEmpty) = true := by simp [hp, hc]
          rw [hcond]
          simp only [if_true]
          constructor
          · rintro -
            refine ⟨List.isEmpty_iff.mp hc, p, rfl, ?_⟩
            simpa [List.isEmpty_iff] using hp
          · rintro -
            split
            · exact ⟨p, by simp⟩
            · exact ⟨p, by simp⟩
        · have hcond : (!p.isEmpty && content.isEmpty) = false := by simp [hp, hc]
          rw [hcond]
          simp only [Bool.false_eq_true, if_false]
          constructor
          · rintro ⟨q, hq⟩
            exact absurd hq
              (executeValidated_no_fileRead c st content title category source none opts q)
          · rintro ⟨hce, -⟩
            exact absurd (List.isEmpty_iff.mpr hce) (by simpa using hc)
  · intro hne
    unfold DocumentIndexTool.execute
    cases filePath with
    | none => rfl
    | some p =>
      dsimp only
      have hcm : content.isEmpty = false := by
        cases content with
        | nil => exact absurd rfl hne
        | cons a l => rfl
      simp [hcm]

/-- C10 witness: a concrete run with both inline content and a file
path equals the run without the file path. -/
theorem C10_witness :
    ("hi".toList ≠ []) ∧
    DocumentIndexTool.execute wIndexCollab { recs := [], fail := none } "hi".toList
        "T".toList "General".toList "Manual Input".toList (some "f.txt".toList) {} =
      DocumentIndexTool.execute wIndexCollab { recs := [], fail := none } "hi".toList
        "T".toList "General".toList "Manual Input".toList none {} :=
  ⟨by decide,
    (C10_inline_content_bypasses_file wIndexCollab { recs := [], fail := none } "hi".toList
      "T".toList "General".toList "Manual Input".toList (some "f.txt".toList) {}).2
      (by decide)⟩

/-! ## C8 -/

/-- C8 (code bug): with `validateContent` set, short content under a
valid non-empty title passes validation with a warning and does not
block ingestion — but `DocumentIndexTool.execute` copies validation
warnings into the result only inside its `!validation.isValid` branch
(documentIndexTool.ts, lines 83-93), so the returned `warnings` list is
empty and the computed warning is dropped. -/
theorem C8_validation_warnings_dropped :
    (validateContent "short".toList "T".toList).isValid = true ∧
    (validateContent "short".toList "T".toList).warnings =
      ["Content is very short, may not provide meaningful search results".toList] ∧
    (DocumentIndexTool.execute wIndexCollab { recs := [], fail := none } "short".toList
        "T".toList "General".toList "Manual Input".toList none {}).1.success = true ∧
    (DocumentIndexTool.execute wIndexCollab { recs := [], fail := none } "short".toList
        "T".toList "General".toList "Manual Input".toList none {}).1.warnings = [] := by
  refine ⟨by decide, by decide, by decide, by decide⟩

/-! ## C3 -/

/-- C3: a delete request without `confirmDeletion: true` always yields
the structured failure (`success = false`, a confirmation-demanding
error), leaves the store untouched, and performs no store call at all
(empty effect trace). -/
theorem C3_delete_confirmation_gate (env : JsDate) (ic : IndexCollab)
    (sample : Nat → List PineRec) (st : Pine)
    (options : KnowledgeManagementTool.MgmtOptions)
    (hconf : options.confirmDeletion = false) :
    KnowledgeManagementTool.execute env ic sample st "delete".toList options =
      ({ operation := "delete".toList
         success := false
         data := none
         message := "Failed to execute delete".toList
         errors :=
           ["Operation failed: Deletion requires explicit confirmation. Set confirmDeletion: true".toList] },
        st, []) := by
  unfold KnowledgeManagementTool.execute
  rw [if_neg (by decide), if_neg (by decide), if_neg (by decide), if_pos rfl]
  simp [KnowledgeManagementTool.deleteDocument, hconf, KnowledgeManagementTool.wrapErr]

/-- C3 witness: the gate at a concrete state and options object. -/
theorem C3_witness :
    (({ title := some "X".toList } : KnowledgeManagementTool.MgmtOptions).confirmDeletion
        = false) ∧
    (KnowledgeManagementTool.execute wDate wIndexCollab (fun _ => [])
        { recs := [], fail := none } "delete".toList
        { title := some "X".toList }).2.2 = [] :=
  ⟨by decide, by
    rw [C3_delete_confirmation_gate wDate wIndexCollab (fun _ => [])
      { recs := [], fail := none } { title := some "X".toList } (by decide)]⟩

/-! ## C1 -/

/-- C1: every result returned by `KnowledgeSearchTool.execute` has a
score at least the requested threshold, and for any higher threshold
the result set is a subset of the lower-threshold result set — raising
the threshold only removes results. -/
theorem C1_search_threshold_law (c : SearchCollab) (query : Str) (topK : Nat)
    (category : Option Str) (t : ℚ) :
    (∀ r ∈ (KnowledgeSearchTool.execute c query topK category t).results, t ≤ r.score) ∧
    (∀ t1, t ≤ t1 →
      ∀ r ∈ (KnowledgeSearchTool.execute c query topK category t1).results,
        r ∈ (KnowledgeSearchTool.execute c query topK category t).results) := by
  unfold KnowledgeSearchTool.execute
  cases hemb : c.embed query with
  | error m =>
    constructor
    · intro r hr
      simp [KnowledgeSearchTool.errorOutput] at hr
    · intro t1 ht1 r hr
      simp [KnowledgeSearchTool.errorOutput] at hr
  | ok emb =>
    dsimp only
    cases hq : c.query emb (min topK 20) (categoryFilter category) with
    | error m =>
      dsimp only
      constructor
      · intro r hr
        simp [KnowledgeSearchTool.errorOutput] at hr
      · intro t1 ht1 r hr
        simp [KnowledgeSearchTool.errorOutput] at hr
    | ok found =>
      dsimp only
      constructor
      · intro r hr
        have hr2 : r ∈ (found.filter (fun m => decide (t ≤ m.score))).map
            KnowledgeSearchTool.toSearchResult := by
          revert hr
          split <;> (intro hr; exact hr)
        rcases List.mem_map.mp hr2 with ⟨m0, hm0, rfl⟩
        have := (List.mem_filter.mp hm0).2
        simpa [KnowledgeSearchTool.toSearchResult] using of_decide_eq_true this
      · intro t1 ht1 r hr
        have hr2 : r ∈ (found.filter (fun m => decide (t1 ≤ m.score))).map
            KnowledgeSearchTool.toSearchResult := by
          revert hr
          split <;> (intro hr; exact hr)
        rcases List.mem_map.mp hr2 with ⟨m0, hm0, rfl⟩
        rcases List.mem_filter.mp hm0 with ⟨hm0l, hm0s⟩
        have hms : t ≤ m0.score := le_trans ht1 (of_decide_eq_true hm0s)
        have hmem : KnowledgeSearchTool.toSearchResult m0 ∈
            (found.filter (fun m => decide (t ≤ m.score))).map
              KnowledgeSearchTool.toSearchResult :=
          List.mem_map_of_mem _ (List.mem_filter.mpr ⟨hm0l, decide_eq_true hms⟩)
        split <;> exact hmem

/-- C1 witness: with a concrete store the score-2 match passes the
threshold-2 search, its score is at least 2, and it also appears in
the threshold-1 search (subset property applied at thresholds 1 ≤ 2). -/
theorem C1_witness :
    ((1:ℚ) ≤ 2) ∧
    wResultA ∈ (KnowledgeSearchTool.execute wSearchCollab "q".toList 5 none 2).results ∧
    (2:ℚ) ≤ wResultA.score ∧
    wResultA ∈ (KnowledgeSearchTool.execute wSearchCollab "q".toList 5 none 1).results :=
  ⟨by decide, by decide,
    (C1_search_threshold_law wSearchCollab "q".toList 5 none 2).1 wResultA (by decide),
    (C1_search_threshold_law wSearchCollab "q".toList 5 none 1).2 2 (by decide) wResultA
      (by decide)⟩

/-! ## C2 -/

theorem jsSliceFrom_neg (l : List α) (k : Nat) :
    jsSliceFrom (-(k : Int)) l = if k = 0 then l else lastN l k := by
  unfold jsSliceFrom lastN
  rcases Nat.eq_zero_or_pos k with hk | hk
  · subst hk
    norm_num
  · rw [if_pos (by omega), if_neg (by omega)]
    congr 1
    omega

theorem splitOnChar_ne_nil (s : Str) (sep : Char) : ∀ acc, splitOnChar s sep acc ≠ [] := by
  induction s with
  | nil => intro acc; simp [splitOnChar]
  | cons c rest ih =>
    intro acc
    unfold splitOnChar
    by_cases hc : c = sep
    · simp [hc]
    · simpa [hc] using ih (c :: acc)

theorem joinWith_cons (sep a : Str) (l : List Str) (h : l ≠ []) :
    joinWith sep (a :: l) = a ++ sep ++ joinWith sep l := by
  cases l with
  | nil => exact absurd rfl h
  | cons b r => rfl

theorem joinWith_splitOnChar (sep : Char) (s : Str) :
    ∀ acc, joinWith [sep] (splitOnChar s sep acc) = acc.reverse ++ s := by
  induction s with
  | nil => intro acc; simp [splitOnChar, joinWith]
  | cons c rest ih =>
    intro acc
    unfold splitOnChar
    by_cases hc : c = sep
    · rw [if_pos hc, joinWith_cons _ _ _ (splitOnChar_ne_nil rest sep []), ih []]
      simp [hc]
    · rw [if_neg hc, ih (c :: acc)]
      simp

/-- C2 counterexample: with `chunkSize = 11` and `overlap = 10`
(`floor(overlap/10) = 1`), the first chunk closes as `"aa bb\n\ncc"`;
its whitespace-delimited words are `aa`, `bb`, `cc`, so the claim
predicts the next chunk to begin with `cc`.  The code instead splits on
single spaces (`currentChunk.split(' ')`), so the carried token is
`"bb\n\ncc"` and the produced second chunk does not begin with `cc`. -/
theorem C2_counterexample :
    intelligentChunking "aa bb\n\ncc\n\nee".toList 11 10 =
      ["aa bb\n\ncc".toList, "bb\n\ncc\n\nee".toList] ∧
    lastN ((splitWs "aa bb\n\ncc".toList).filter (fun w => !w.isEmpty)) (10 / 10) =
      ["cc".toList] ∧
    ¬ List.isPrefixOf "cc".toList "bb\n\ncc\n\nee".toList := by
  refine ⟨by decide, by decide, by decide⟩

/-- C2 (amended): when the paragraph loop closes a chunk (the next
paragraph fits `chunkSize` on its own but would overflow the running
size), the closed chunk is pushed trimmed and the next chunk begins
with the last `floor(overlap/10)` SPACE-delimited tokens of the
untrimmed closed chunk (tokens from `currentChunk.split(' ')`, which
may contain newlines), followed by a blank line and the paragraph;
when `floor(overlap/10) = 0`, JS `slice(-0)` returns all tokens, so the
entire closed chunk is carried over.  The sentence loop of the
oversized-paragraph path behaves the same with a single-space
separator. -/
theorem C2_overlap_seed_amended (chunkSize overlap : Nat) (s : CState) (p : Str)
    (hp : p.length ≤ chunkSize) (hover : chunkSize < s.curSize + p.length)
    (hcur : s.cur ≠ []) :
    (chunkPara chunkSize overlap s p).chunks = s.chunks ++ [jsTrim s.cur] ∧
    (chunkPara chunkSize overlap s p).cur =
      (if overlap / 10 = 0 then s.cur
       else joinWith [' '] (lastN (splitOnChar s.cur ' ' []) (overlap / 10))) ++
        '\n' :: '\n' :: p ∧
    (∀ (chs : List Str) (sc sent : Str), chunkSize < sc.length + sent.length → sc ≠ [] →
      sentStep chunkSize overlap (chs, sc) sent =
        (chs ++ [jsTrim sc],
         (if overlap / 10 = 0 then sc
          else joinWith [' '] (lastN (splitOnChar sc ' ' []) (overlap / 10))) ++
           ' ' :: sent)) := by
  have hseed : ∀ cur : Str, joinWith [' '] (overlapWordsOf (splitOnChar cur ' ' []) overlap) =
      (if overlap / 10 = 0 then cur
       else joinWith [' '] (lastN (splitOnChar cur ' ' []) (overlap / 10))) := by
    intro cur
    rw [overlapWordsOf, jsSliceFrom_neg]
    by_cases h0 : overlap / 10 = 0
    · rw [if_pos h0, if_pos h0, joinWith_splitOnChar]
      rfl
    · rw [if_neg h0, if_neg h0]
  refine ⟨?_, ?_, ?_⟩
  · unfold chunkPara
    rw [if_neg (by omega)]
    rw [if_pos (by simp [hcur, hover])]
  · unfold chunkPara
    rw [if_neg (by omega)]
    rw [if_pos (by simp [hcur, hover])]
    exact congrArg (fun x => x ++ '\n' :: '\n' :: p) (hseed s.cur)
  · intro chs sc sent hlen hsc
    unfold sentStep
    rw [if_pos (by simp [List.length_append, hsc]; omega)]
    dsimp only
    rw [hseed sc]

/-- C2 witness: a concrete instance of the amended seeding law. -/
theorem C2_witness :
    ("cc".toList.length ≤ 8) ∧ (8 < 7 + "cc".toList.length) ∧
    (chunkPara 8 10 ⟨[], "aa bb".toList, 7⟩ "cc".toList).cur =
      (if 10 / 10 = 0 then "aa bb".toList
       else joinWith [' '] (lastN (splitOnChar "aa bb".toList ' ' []) (10 / 10))) ++
        '\n' :: '\n' :: "cc".toList :=
  ⟨by decide, by decide,
    ((C2_overlap_seed_amended 8 10 ⟨[], "aa bb".toList, 7⟩ "cc".toList (by decide) (by decide)
      (by decide)).2).1⟩

/-! ## C4 -/

theorem histGet_bumpCount (l : List (Str × Nat)) (k0 k : Str) :
    KnowledgeManagementTool.histGet (bumpCount l k0) k =
      if k0 = k then some ((KnowledgeManagementTool.histGet l k).getD 0 + 1)
      else KnowledgeManagementTool.histGet l k := by
  induction l with
  | nil =>
    by_cases h : k0 = k <;> simp [bumpCount, KnowledgeManagementTool.histGet, h]
  | cons p rest ih =>
    obtain ⟨k1, v⟩ := p
    by_cases h1 : k1 = k0
    · subst h1
      by_cases h2 : k1 = k <;>
        simp [bumpCount, KnowledgeManagementTool.histGet, h2]
    · by_cases h2 : k1 = k
      · subst h2
        have hk0 : ¬ k0 = k1 := fun h => h1 h.symm
        simp [bumpCount, KnowledgeManagementTool.histGet, h1, hk0]
      · simp [bumpCount, KnowledgeManagementTool.histGet, h1, h2, ih]

theorem statsStep_categories (env : JsDate) (a : KnowledgeManagementTool.StatsAcc)
    (v : PineRec) :
    (KnowledgeManagementTool.statsStep env a v).categories =
      bumpCount a.categories (KnowledgeManagementTool.catKeyOf v) := by
  unfold KnowledgeManagementTool.statsStep KnowledgeManagementTool.catKeyOf
  dsimp only
  repeat' split
  all_goals rfl

theorem statsStep_sources (env : JsDate) (a : KnowledgeManagementTool.StatsAcc)
    (v : PineRec) :
    (KnowledgeManagementTool.statsStep env a v).sources =
      bumpCount a.sources (KnowledgeManagementTool.srcKeyOf v) := by
  unfold KnowledgeManagementTool.statsStep KnowledgeManagementTool.srcKeyOf
  dsimp only
  repeat' split
  all_goals rfl

theorem statsStep_timeDistribution (env : JsDate) (a : KnowledgeManagementTool.StatsAcc)
    (v : PineRec) :
    (KnowledgeManagementTool.statsStep env a v).timeDistribution =
      match KnowledgeManagementTool.tdKeyOf env v with
      | some k0 => bumpCount a.timeDistribution k0
      | none => a.timeDistribution := by
  unfold KnowledgeManagementTool.statsStep KnowledgeManagementTool.tdKeyOf
  dsimp only
  repeat' split
  all_goals simp_all

theorem addCnt_zero (o : Option Nat) : KnowledgeManagementTool.addCnt o 0 = o := by
  cases o <;> simp [KnowledgeManagementTool.addCnt]

theorem addCnt_bump (o : Option Nat) (n : Nat) :
    KnowledgeManagementTool.addCnt (some (o.getD 0 + 1)) n =
      KnowledgeManagementTool.addCnt o (n + 1) := by
  cases o <;> simp [KnowledgeManagementTool.addCnt] <;> omega

theorem histGet_statsFold (env : JsDate) (keyOf : PineRec → Option Str)
    (proj : KnowledgeManagementTool.StatsAcc → List (Str × Nat))
    (hstep : ∀ a v, proj (KnowledgeManagementTool.statsStep env a v) =
      match keyOf v with
      | some k0 => bumpCount (proj a) k0
      | none => proj a)
    (recs : List PineRec) :
    ∀ (acc : KnowledgeManagementTool.StatsAcc) (k : Str),
    KnowledgeManagementTool.histGet
        (proj (recs.foldl (KnowledgeManagementTool.statsStep env) acc)) k =
      KnowledgeManagementTool.addCnt (KnowledgeManagementTool.histGet (proj acc) k)
        (recs.countP (fun v => decide (keyOf v = some k))) := by
  induction recs with
  | nil =>
    intro acc k
    simp [addCnt_zero]
  | cons v recs ih =>
    intro acc k
    rw [List.foldl_cons, ih, hstep]
    cases hk : keyOf v with
    | none =>
      simp [List.countP_cons, hk]
    | some k0 =>
      by_cases hkk : k0 = k
      · subst hkk
        rw [histGet_bumpCount, if_pos rfl, addCnt_bump]
        simp [List.countP_cons, hk]
      · rw [histGet_bumpCount, if_neg hkk]
        have : decide (keyOf v = some k) = false := by
          simp [hk, hkk]
        simp [List.countP_cons, this]

theorem histGet_map_snd {α β : Type} (f : α → β) (l : List (Str × α)) (k : Str) :
    KnowledgeManagementTool.histGet (l.map (fun p => (p.1, f p.2))) k =
      (KnowledgeManagementTool.histGet l k).map f := by
  induction l with
  | nil => rfl
  | cons p rest ih =>
    by_cases h : p.1 = k <;> simp [KnowledgeManagementTool.histGet, h, ih]

/-- C4 counterexample: a store of 4 vectors with a 2-record sample, both
records of category `X` and with truthy timestamps in the same month.
The scale factor is `4 / 2 = 2`: the category histogram reports the
extrapolated count `4`, but the month histogram reports the raw sample
count `2` — the claimed extrapolation `Math.round(2 × 2) = 4` is not
applied to `timeDistribution`. -/
theorem C4_counterexample :
    (KnowledgeManagementTool.getKnowledgeBaseStats wDate wStatsSample wStatsStore
        {}).1.toOption.map KnowledgeManagementTool.StatsData.categories =
      some [("X".toList, 4)] ∧
    (KnowledgeManagementTool.getKnowledgeBaseStats wDate wStatsSample wStatsStore
        {}).1.toOption.map KnowledgeManagementTool.StatsData.timeDistribution =
      some [("2024-01".toList, 2)] ∧
    (KnowledgeManagementTool.getKnowledgeBaseStats wDate wStatsSample wStatsStore
        {}).1.toOption.map KnowledgeManagementTool.StatsData.totalVectors = some 4 ∧
    jsRound (jsMul (qn 2) (jsDivQ (qn 4) (qn 2))) = 4 ∧ (2 : ℕ) ≠ 4 := by
  refine ⟨by decide, by decide, by decide, by decide, by decide⟩

/-- C4 (amended): on a healthy non-empty store, for every key the
category and source histogram entries are the number of sample records
contributing that key, extrapolated by
`Math.round(count × totalVectors / sampleSize)`; the month-of-timestamp
histogram entry is the RAW sample count for that month, with no
extrapolation applied. -/
theorem C4_stats_extrapolation_amended (env : JsDate) (sample : Nat → List PineRec)
    (st : Pine) (options : KnowledgeManagementTool.MgmtOptions)
    (sampleResults : List PineRec) (effs : List PineEff)
    (hne : st.recs ≠ [])
    (hs : KnowledgeManagementTool.sampleVectors sample st (min 1000 st.recs.length) =
      (Except.ok sampleResults, effs)) (k : Str) :
    ∃ d, (KnowledgeManagementTool.getKnowledgeBaseStats env sample st options).1 =
        Except.ok d ∧
      d.totalVectors = st.recs.length ∧
      KnowledgeManagementTool.histGet d.categories k =
        (if sampleResults.countP
              (fun v => decide (KnowledgeManagementTool.catKeyOf v = k)) = 0 then none
         else some (KnowledgeManagementTool.scaleCount st.recs.length sampleResults.length
           (sampleResults.countP (fun v => decide (KnowledgeManagementTool.catKeyOf v = k))))) ∧
      KnowledgeManagementTool.histGet d.sources k =
        (if sampleResults.countP
              (fun v => decide (KnowledgeManagementTool.srcKeyOf v = k)) = 0 then none
         else some (KnowledgeManagementTool.scaleCount st.recs.length sampleResults.length
           (sampleResults.countP (fun v => decide (KnowledgeManagementTool.srcKeyOf v = k))))) ∧
      KnowledgeManagementTool.histGet d.timeDistribution k =
        (if sampleResults.countP
              (fun v => decide (KnowledgeManagementTool.tdKeyOf env v = some k)) = 0 then none
         else some (sampleResults.countP
           (fun v => decide (KnowledgeManagementTool.tdKeyOf env v = some k)))) := by
  have hfail : st.fail = none := by
    cases hf : st.fail with
    | none => rfl
    | some m =>
      rw [KnowledgeManagementTool.sampleVectors, hf] at hs
      simp at hs
  unfold KnowledgeManagementTool.getKnowledgeBaseStats
  rw [hfail]
  dsimp only
  rw [if_neg (fun h => hne (List.length_eq_zero.mp h)), hs]
  dsimp only
  refine ⟨_, rfl, rfl, ?_, ?_, ?_⟩
  · dsimp only
    rw [histGet_map_snd
        (fun n => jsRound (jsMul (qn n) (jsDivQ (qn st.recs.length) (qn sampleResults.length))))
        (List.foldl (KnowledgeManagementTool.statsStep env)
          ⟨[], [], [], 0, 0, 0⟩ sampleResults).categories k,
      histGet_statsFold env (fun v => some (KnowledgeManagementTool.catKeyOf v))
        KnowledgeManagementTool.StatsAcc.categories
        (by intro a v; exact statsStep_categories env a v) sampleResults
        ⟨[], [], [], 0, 0, 0⟩ k]
    have hc : sampleResults.countP
          (fun v => decide ((some (KnowledgeManagementTool.catKeyOf v) : Option Str) = some k)) =
        sampleResults.countP (fun v => decide (KnowledgeManagementTool.catKeyOf v = k)) := by
      apply List.countP_congr
      intro v _
      simp
    rw [hc]
    by_cases h0 : List.countP (fun v => decide (KnowledgeManagementTool.catKeyOf v = k))
        sampleResults = 0 <;>
      simp [KnowledgeManagementTool.histGet, KnowledgeManagementTool.addCnt, h0,
        KnowledgeManagementTool.scaleCount]
  · dsimp only
    rw [histGet_map_snd
        (fun n => jsRound (jsMul (qn n) (jsDivQ (qn st.recs.length) (qn sampleResults.length))))
        (List.foldl (KnowledgeManagementTool.statsStep env)
          ⟨[], [], [], 0, 0, 0⟩ sampleResults).sources k,
      histGet_statsFold env (fun v => some (KnowledgeManagementTool.srcKeyOf v))
        KnowledgeManagementTool.StatsAcc.sources
        (by intro a v; exact statsStep_sources env a v) sampleResults
        ⟨[], [], [], 0, 0, 0⟩ k]
    have hc : sampleResults.countP
          (fun v => decide ((some (KnowledgeManagementTool.srcKeyOf v) : Option Str) = some k)) =
        sampleResults.countP (fun v => decide (KnowledgeManagementTool.srcKeyOf v = k)) := by
      apply List.countP_congr
      intro v _
      simp
    rw [hc]
    by_cases h0 : List.countP (fun v => decide (KnowledgeManagementTool.srcKeyOf v = k))
        sampleResults = 0 <;>
      simp [KnowledgeManagementTool.histGet, KnowledgeManagementTool.addCnt, h0,
        KnowledgeManagementTool.scaleCount]
  · dsimp only
    rw [histGet_statsFold env (KnowledgeManagementTool.tdKeyOf env)
        KnowledgeManagementTool.StatsAcc.timeDistribution
        (by intro a v; exact statsStep_timeDistribution env a v) sampleResults
        ⟨[], [], [], 0, 0, 0⟩ k]
    rfl

/-- C4 witness: the amended histogram law evaluated on the 4-vector
store with its 2-record sample at key `X`. -/
theorem C4_witness :
    (wStatsStore.recs ≠ []) ∧
    (KnowledgeManagementTool.sampleVectors wStatsSample wStatsStore
        (min 1000 wStatsStore.recs.length) =
      (Except.ok wStatsSampleRecs, [PineEff.query])) ∧
    (∃ d, (KnowledgeManagementTool.getKnowledgeBaseStats wDate wStatsSample wStatsStore
          {}).1 = Except.ok d ∧
      d.totalVectors = wStatsStore.recs.length ∧
      KnowledgeManagementTool.histGet d.categories "X".toList =
        (if wStatsSampleRecs.countP
              (fun v => decide (KnowledgeManagementTool.catKeyOf v = "X".toList)) = 0 then none
         else some (KnowledgeManagementTool.scaleCount wStatsStore.recs.length
           wStatsSampleRecs.length
           (wStatsSampleRecs.countP
             (fun v => decide (KnowledgeManagementTool.catKeyOf v = "X".toList))))) ∧
      KnowledgeManagementTool.histGet d.sources "X".toList =
        (if wStatsSampleRecs.countP
              (fun v => decide (KnowledgeManagementTool.srcKeyOf v = "X".toList)) = 0 then none
         else some (KnowledgeManagementTool.scaleCount wStatsStore.recs.length
           wStatsSampleRecs.length
           (wStatsSampleRecs.countP
             (fun v => decide (KnowledgeManagementTool.srcKeyOf v = "X".toList))))) ∧
      KnowledgeManagementTool.histGet d.timeDistribution "X".toList =
        (if wStatsSampleRecs.countP
              (fun v => decide (KnowledgeManagementTool.tdKeyOf wDate v = some "X".toList)) =
            0 then none
         else some (wStatsSampleRecs.countP
           (fun v => decide (KnowledgeManagementTool.tdKeyOf wDate v = some "X".toList))))) :=
  ⟨by decide, by decide,
    C4_stats_extrapolation_amended wDate wStatsSample wStatsStore {} wStatsSampleRecs
      [PineEff.query] (by decide) (by decide) "X".toList⟩

/-! ## C5 -/

theorem pineQueryRecs_fail (st : Pine) (m : Str) (h : st.fail = some m)
    (topK : Nat) (filt : Meta → Bool) :
    pineQueryRecs st topK filt = Except.error m := by
  unfold pineQueryRecs
  rw [h]

theorem sampleVectors_fail (sample : Nat → List PineRec) (st : Pine) (m : Str)
    (h : st.fail = some m) (n : Nat) :
    KnowledgeManagementTool.sampleVectors sample st n = (Except.error m, [PineEff.query]) := by
  unfold KnowledgeManagementTool.sampleVectors
  rw [h]

/-- C5 counterexample: on a store in the outage state, the `cleanup`
operation reports `success = true` with an empty top-level `errors`
list (the failure is only visible inside the data payload); and
advanced search with the default strategy list propagates an exception
(`Advanced search failed: ...`) instead of returning a result object. -/
theorem C5_counterexample :
    (KnowledgeManagementTool.execute wDate wIndexCollab wStatsSample brokenPine
        "cleanup".toList {}).1.success = true ∧
    (KnowledgeManagementTool.execute wDate wIndexCollab wStatsSample brokenPine
        "cleanup".toList {}).1.errors = [] ∧
    KnowledgeSearchTool.executeAdvanced wSearchCollab wDate "q".toList
        ["semantic".toList, "keyword".toList] 10 none =
      Except.error "Advanced search failed: keywordResults is not iterable".toList := by
  refine ⟨by decide, by decide, rfl⟩

/-- C5 (amended): the dispatch wraps an unknown tag and every
collaborator error raised by `list`, `update`, `delete` (with no
explicit `chunkIds` list), `categories` and `search-by-metadata` into a
structured `success = false` result with a non-empty `errors` list; but
`stats` on a failing store reports `success = true` (the outage is
swallowed into zeroed statistics), `cleanup` on a failing store reports
`success = true` with the failure only inside its data payload, and
`executeAdvanced` with the default strategy list always propagates an
exception instead of returning a result object. -/
theorem C5_error_contract_amended (env : JsDate) (ic : IndexCollab)
    (sample : Nat → List PineRec) (st : Pine)
    (options : KnowledgeManagementTool.MgmtOptions) (op : Str) (m : Str)
    (hfail : st.fail = some m) (hcid : options.chunkIds = none) :
    (op ∉ ["stats".toList, "list".toList, "update".toList, "delete".toList,
        "cleanup".toList, "categories".toList, "search-by-metadata".toList] →
      KnowledgeManagementTool.execute env ic sample st op options =
        ({ operation := op
           success := false
           data := none
           message := "Invalid operation specified".toList
           errors := ["Unknown operation: ".toList ++ op] }, st, [])) ∧
    (∀ op1 ∈ ["list".toList, "update".toList, "delete".toList, "categories".toList,
        "search-by-metadata".toList],
      (KnowledgeManagementTool.execute env ic sample st op1 options).1.success = false ∧
      (KnowledgeManagementTool.execute env ic sample st op1 options).1.errors ≠ []) ∧
    (KnowledgeManagementTool.execute env ic sample st "stats".toList options).1.success = true ∧
    ((KnowledgeManagementTool.execute env ic sample st "cleanup".toList options).1.success =
        true ∧
      (KnowledgeManagementTool.execute env ic sample st "cleanup".toList options).1.data =
        some (KnowledgeManagementTool.MgmtData.cleanup
          { errors := ["Cleanup failed: ".toList ++ m] })) ∧
    (∀ (c : SearchCollab) (q : Str) (topK : Nat) (cat : Option Str),
      KnowledgeSearchTool.executeAdvanced c env q ["semantic".toList, "keyword".toList]
          topK cat =
        Except.error "Advanced search failed: keywordResults is not iterable".toList) := by
  refine ⟨?_, ?_, ?_, ?_, ?_⟩
  · intro hop
    simp only [List.mem_cons, List.mem_singleton, not_or] at hop
    obtain ⟨h1, h2, h3, h4, h5, h6, h7, -⟩ := hop
    unfold KnowledgeManagementTool.execute
    rw [if_neg h1, if_neg h2, if_neg h3, if_neg h4, if_neg h5, if_neg h6, if_neg h7]
  · intro op1 hop1
    fin_cases hop1
    · have hl : KnowledgeManagementTool.listDocuments env st options =
          (Except.error m, [PineEff.query]) := by
        unfold KnowledgeManagementTool.listDocuments
        dsimp only
        rw [pineQueryRecs_fail st m hfail]
      unfold KnowledgeManagementTool.execute
      rw [if_neg (by decide), if_pos rfl, hl]
      exact ⟨rfl, by simp [KnowledgeManagementTool.wrapErr]⟩
    · have hu : KnowledgeManagementTool.updateDocument env ic st options =
          (Except.error m, st, [PineEff.query]) := by
        unfold KnowledgeManagementTool.updateDocument
        dsimp only
        rw [pineQueryRecs_fail st m hfail]
      unfold KnowledgeManagementTool.execute
      rw [if_neg (by decide), if_neg (by decide), if_pos rfl, hu]
      exact ⟨rfl, by simp [KnowledgeManagementTool.wrapErr]⟩
    · have hd : ∃ e effs, KnowledgeManagementTool.deleteDocument st options =
          (Except.error e, st, effs) := by
        unfold KnowledgeManagementTool.deleteDocument
        cases hconf : options.confirmDeletion with
        | false => exact ⟨_, _, by rw [if_pos (by simp [hconf])]⟩
        | true =>
          rw [if_neg (by simp [hconf]), hcid]
          dsimp only
          by_cases ht : KnowledgeManagementTool.optTruthy options.title
          · rw [if_pos ht, pineQueryRecs_fail st m hfail]
            exact ⟨_, _, rfl⟩
          · rw [if_neg ht]
            by_cases hcat : KnowledgeManagementTool.optTruthy options.category
            · rw [if_pos hcat, pineQueryRecs_fail st m hfail]
              exact ⟨_, _, rfl⟩
            · rw [if_neg hcat]
              exact ⟨_, _, rfl⟩
      obtain ⟨e, effs, hd⟩ := hd
      unfold KnowledgeManagementTool.execute
      rw [if_neg (by decide), if_neg (by decide), if_neg (by decide), if_pos rfl, hd]
      exact ⟨rfl, by simp [KnowledgeManagementTool.wrapErr]⟩
    · have hc : KnowledgeManagementTool.getCategories env sample st options =
          (Except.error m, [PineEff.query]) := by
        unfold KnowledgeManagementTool.getCategories
        rw [sampleVectors_fail sample st m hfail]
      unfold KnowledgeManagementTool.execute
      rw [if_neg (by decide), if_neg (by decide), if_neg (by decide), if_neg (by decide),
        if_neg (by decide), if_pos rfl, hc]
      exact ⟨rfl, by simp [KnowledgeManagementTool.wrapErr]⟩
    · have hm2 : KnowledgeManagementTool.searchByMetadata st options =
          (Except.error m, [PineEff.query]) := by
        unfold KnowledgeManagementTool.searchByMetadata
        dsimp only
        rw [pineQueryRecs_fail st m hfail]
      unfold KnowledgeManagementTool.execute
      rw [if_neg (by decide), if_neg (by decide), if_neg (by decide), if_neg (by decide),
        if_neg (by decide), if_neg (by decide), if_pos rfl, hm2]
      exact ⟨rfl, by simp [KnowledgeManagementTool.wrapErr]⟩
  · have hst : KnowledgeManagementTool.getKnowledgeBaseStats env sample st options =
        (Except.ok
          { totalVectors := 0
            categories := []
            sources := []
            timeDistribution := []
            averageChunkSize := 0
            totalContent := 0
            documentsWithMetadata := 0
            averageWordsPerChunk := 0
            lastUpdated := env.nowIso }, [PineEff.statsCall]) := by
      unfold KnowledgeManagementTool.getKnowledgeBaseStats
      rw [hfail]
      rfl
    unfold KnowledgeManagementTool.execute
    rw [if_pos rfl, hst]
  · have hcl : KnowledgeManagementTool.cleanupKnowledgeBase env sample st options =
        ({ errors := ["Cleanup failed: ".toList ++ m] }, st, [PineEff.query]) := by
      unfold KnowledgeManagementTool.cleanupKnowledgeBase
      rw [sampleVectors_fail sample st m hfail]
    unfold KnowledgeManagementTool.execute
    rw [if_neg (by decide), if_neg (by decide), if_neg (by decide), if_neg (by decide),
      if_pos rfl, hcl]
    exact ⟨rfl, rfl⟩
  · intro c q topK cat
    rfl

/-- C5 witness: the amended contract applied to the outage store, read
off at the `cleanup` conjunct. -/
theorem C5_witness :
    (brokenPine.fail = some "boom".toList) ∧
    (({} : KnowledgeManagementTool.MgmtOptions).chunkIds = none) ∧
    ((KnowledgeManagementTool.execute wDate wIndexCollab wStatsSample brokenPine
        "cleanup".toList {}).1.success = true ∧
      (KnowledgeManagementTool.execute wDate wIndexCollab wStatsSample brokenPine
          "cleanup".toList {}).1.data =
        some (KnowledgeManagementTool.MgmtData.cleanup
          { errors := ["Cleanup failed: ".toList ++ "boom".toList] })) :=
  ⟨rfl, rfl,
    (C5_error_contract_amended wDate wIndexCollab wStatsSample brokenPine {} "x".toList
      "boom".toList rfl rfl).2.2.2.1⟩

/-! ## C6 -/

theorem jsGet_append (l1 l2 : Meta) (k : Str) :
    jsGet (l1 ++ l2) k = (jsGet l1 k).or (jsGet l2 k) := by
  induction l1 with
  | nil => rfl
  | cons p l1 ih =>
    obtain ⟨k1, v1⟩ := p
    by_cases hk : k1 = k
    · simp [jsGet, hk, Option.or]
    · simp only [List.cons_append, jsGet, if_neg hk]
      exact ih

theorem jsGet_mapOverride (a b : Meta) (k : Str) :
    jsGet (a.map (fun p => (p.1, (jsGet b p.1).getD p.2))) k =
      (jsGet a k).map (fun va => (jsGet b k).getD va) := by
  induction a with
  | nil => rfl
  | cons p a ih =>
    obtain ⟨k1, v1⟩ := p
    by_cases hk : k1 = k
    · subst hk
      simp [jsGet]
    · simp only [List.map_cons, jsGet, if_neg hk]
      exact ih

theorem jsGet_filterNew (a b : Meta) (k : Str) :
    jsGet (b.filter (fun p => !(hasKey a p.1))) k =
      if hasKey a k then none else jsGet b k := by
  induction b with
  | nil => simp [jsGet]
  | cons p b ih =>
    obtain ⟨k1, v1⟩ := p
    by_cases hKa : hasKey a k1
    · rw [List.filter_cons, if_neg (by simp [hKa])]
      by_cases hk : k1 = k
      · subst hk
        rw [ih]
        simp [hKa]
      · rw [ih]
        by_cases ha : hasKey a k <;> simp [ha, jsGet, hk]
    · rw [List.filter_cons, if_pos (by simp [hKa])]
      by_cases hk : k1 = k
      · subst hk
        simp [jsGet, hKa]
      · rw [show jsGet ((k1, v1) :: List.filter (fun p => !(hasKey a p.1)) b) k =
            jsGet (List.filter (fun p => !(hasKey a p.1)) b) k from by simp [jsGet, hk]]
        rw [ih]
        by_cases ha : hasKey a k <;> simp [ha, jsGet, hk]

theorem jsGet_spreadMerge (a b : Meta) (k : Str) :
    jsGet (spreadMerge a b) k =
      match jsGet a k with
      | some va => some ((jsGet b k).getD va)
      | none => jsGet b k := by
  unfold spreadMerge
  rw [jsGet_append, jsGet_mapOverride, jsGet_filterNew]
  unfold hasKey
  cases jsGet a k <;> rfl

theorem jsGet_single_ne (k k1 : Str) (v : MVal) (h : k ≠ k1) : jsGet [(k1, v)] k = none := by
  simp [jsGet, Ne.symm h]

theorem foldl_applyPatch_map (us : List (Str × Meta)) :
    ∀ recs : List PineRec, us.foldl applyPatch recs =
      recs.map (fun r =>
        us.foldl (fun r u => if r.id = u.1 then { r with metadata := u.2 } else r) r) := by
  induction us with
  | nil => intro recs; simp
  | cons u us ih =>
    intro recs
    rw [List.foldl_cons, ih (applyPatch recs u)]
    unfold applyPatch
    rw [List.map_map]
    rfl

theorem stepFold_of_not_mem (us : List (Str × Meta)) :
    ∀ r : PineRec, r.id ∉ us.map Prod.fst →
      us.foldl (fun r u => if r.id = u.1 then { r with metadata := u.2 } else r) r = r := by
  induction us with
  | nil => intro r _; rfl
  | cons u us ih =>
    intro r h
    simp only [List.map_cons, List.mem_cons, not_or] at h
    rw [List.foldl_cons, if_neg h.1]
    exact ih r h.2

theorem stepFold_of_mem (us : List (Str × Meta)) :
    ∀ (r : PineRec) (md : Meta), (r.id, md) ∈ us → (us.map Prod.fst).Nodup →
      us.foldl (fun r u => if r.id = u.1 then { r with metadata := u.2 } else r) r =
        { r with metadata := md } := by
  induction us with
  | nil =>
    intro r md hmem _
    exact absurd hmem (List.not_mem_nil _)
  | cons u us ih =>
    intro r md hmem hnd
    rw [List.foldl_cons, List.map_cons] at *
    have hnd0 := List.nodup_cons.mp hnd
    by_cases hu : r.id = u.1
    · rw [if_pos hu]
      have hnot2 : ({ r with metadata := u.2 } : PineRec).id ∉ us.map Prod.fst := by
        show r.id ∉ us.map Prod.fst
        rw [hu]
        exact hnd0.1
      rw [stepFold_of_not_mem us _ hnot2]
      have hmd : md = u.2 := by
        cases List.mem_cons.mp hmem with
        | inl h => exact congrArg Prod.snd h
        | inr h =>
          have : r.id ∈ us.map Prod.fst := List.mem_map_of_mem Prod.fst h
          rw [hu] at this
          exact absurd this hnd0.1
      rw [hmd]
    · rw [if_neg hu]
      refine ih r md ?_ hnd0.2
      cases List.mem_cons.mp hmem with
      | inl h => exact absurd (congrArg Prod.fst h) hu
      | inr h => exact h

theorem patch_fold_filter (recs : List PineRec) (p : PineRec → Bool) (g : PineRec → Meta)
    (hnd : (recs.map PineRec.id).Nodup) :
    ((recs.filter p).map (fun e => (e.id, g e))).foldl applyPatch recs =
      recs.map (fun r => if p r then { r with metadata := g r } else r) := by
  rw [foldl_applyPatch_map]
  apply List.map_congr_left
  intro r hr
  have hkeys : (((recs.filter p).map (fun e => (e.id, g e))).map Prod.fst) =
      (recs.filter p).map PineRec.id := by
    rw [List.map_map]
    rfl
  by_cases hp : p r
  · have hmem : (r.id, g r) ∈ (recs.filter p).map (fun e => (e.id, g e)) :=
      List.mem_map_of_mem _ (List.mem_filter.mpr ⟨hr, hp⟩)
    have hndus : (((recs.filter p).map (fun e => (e.id, g e))).map Prod.fst).Nodup := by
      rw [hkeys]
      exact List.Nodup.sublist (List.Sublist.map PineRec.id (List.filter_sublist recs)) hnd
    rw [stepFold_of_mem _ r (g r) hmem hndus, if_pos hp]
  · have hnotin : r.id ∉ ((recs.filter p).map (fun e => (e.id, g e))).map Prod.fst := by
      rw [hkeys]
      intro hin
      obtain ⟨e, he, heid⟩ := List.mem_map.mp hin
      obtain ⟨heR, hep⟩ := List.mem_filter.mp he
      have : e = r := List.inj_on_of_nodup_map hnd heR hr heid
      subst this
      exact hp hep
    rw [stepFold_of_not_mem _ r hnotin, if_neg hp]

theorem safeUpdate_ok (st : Pine) (us : List (Str × Meta)) (h : st.fail = none) :
    safeUpdate st us = Except.ok { st with recs := us.foldl applyPatch st.recs } := by
  unfold safeUpdate
  rw [h]

/-- C6 counterexample: a metadata-only update whose `newMetadata`
object carries `content` and `lastUpdated` keys.  The spread
`{...match.metadata, ...newMetadata, lastUpdated: now}` overwrites the
chunk's `content` field (the claim says `content` is unchanged) and the
supplied `lastUpdated` field is itself overwritten by the current
timestamp (the chunk does not receive that new metadata field). -/
theorem C6_counterexample :
    ((KnowledgeManagementTool.updateDocument wDate wIndexCollab wUpd1Store
        wUpdHijackOpts).2.1.recs.map (fun r => jsGet r.metadata "content".toList)) =
      [some (MVal.s "HIJACKED".toList)] ∧
    ((KnowledgeManagementTool.updateDocument wDate wIndexCollab wUpd1Store
        wUpdHijackOpts).2.1.recs.map (fun r => jsGet r.metadata "lastUpdated".toList)) =
      [some (MVal.s wDate.nowIso)] ∧
    (wUpd1Store.recs.map (fun r => jsGet r.metadata "content".toList)) =
      [some (MVal.s "original".toList)] ∧
    jsGet [("content".toList, MVal.s "HIJACKED".toList),
        ("lastUpdated".toList, MVal.s "1999-01-01".toList)] "lastUpdated".toList =
      some (MVal.s "1999-01-01".toList) ∧
    wDate.nowIso ≠ "1999-01-01".toList := by
  refine ⟨by decide, by decide, by decide, by decide, by decide⟩

/-- C6 (amended): for a metadata-only update of title `t` on a healthy
store with distinct chunk ids, when the new metadata carries no
`content` key and the requested field `k` is not `lastUpdated`, every
title-matching chunk is patched in place with
`{...chunk.metadata, ...newMetadata, lastUpdated: now}` and every other
chunk is untouched; on each patched chunk the field `k` takes its new
value, `lastUpdated` is the current timestamp, `content` is unchanged,
and the result reports `chunksUpdated = n` for the `n` matching
chunks. -/
theorem C6_metadata_only_update_amended (env : JsDate) (ic : IndexCollab) (st : Pine)
    (options : KnowledgeManagementTool.MgmtOptions) (t : Str) (nm : Meta) (k : Str) (v : MVal)
    (hfail : st.fail = none)
    (hnodup : (st.recs.map PineRec.id).Nodup)
    (htitle : options.title = some t)
    (hop : options.operation = "metadata-only".toList)
    (hnm : options.newMetadata = some nm)
    (hcap : (st.recs.filter (fun r => KnowledgeManagementTool.titleFilt t r.metadata)).length ≤
      10000)
    (hne : st.recs.filter (fun r => KnowledgeManagementTool.titleFilt t r.metadata) ≠ [])
    (hcontent : jsGet nm "content".toList = none)
    (hk : jsGet nm k = some v)
    (hklu : k ≠ "lastUpdated".toList) :
    ∃ st2, KnowledgeManagementTool.updateDocument env ic st options =
      (Except.ok (KnowledgeManagementTool.UpdateData.metadataOnly
          (st.recs.filter (fun r => KnowledgeManagementTool.titleFilt t r.metadata)).length
          (metaKeys nm)),
        st2,
        [PineEff.query, PineEff.updateMeta
          (st.recs.filter (fun r => KnowledgeManagementTool.titleFilt t r.metadata)).length]) ∧
      st2.recs = st.recs.map (fun r =>
        if KnowledgeManagementTool.titleFilt t r.metadata then
          { r with
              metadata := spreadMerge (spreadMerge r.metadata nm)
                            [("lastUpdated".toList, MVal.s env.nowIso)] }
        else r) ∧
      (∀ r ∈ st.recs, KnowledgeManagementTool.titleFilt t r.metadata = true →
        jsGet (spreadMerge (spreadMerge r.metadata nm)
            [("lastUpdated".toList, MVal.s env.nowIso)]) k = some v ∧
        jsGet (spreadMerge (spreadMerge r.metadata nm)
            [("lastUpdated".toList, MVal.s env.nowIso)]) "lastUpdated".toList =
          some (MVal.s env.nowIso) ∧
        jsGet (spreadMerge (spreadMerge r.metadata nm)
            [("lastUpdated".toList, MVal.s env.nowIso)]) "content".toList =
          jsGet r.metadata "content".toList) := by
  have hq : pineQueryRecs st 10000 (KnowledgeManagementTool.titleFilt t) =
      Except.ok (st.recs.filter (fun r => KnowledgeManagementTool.titleFilt t r.metadata)) := by
    unfold pineQueryRecs
    rw [hfail]
    dsimp only
    rw [List.take_of_length_le hcap]
  unfold KnowledgeManagementTool.updateDocument
  rw [htitle]
  simp only [Option.getD_some]
  rw [hq]
  dsimp only
  rw [if_neg (by simpa [List.isEmpty_iff] using hne)]
  rw [hop, hnm]
  rw [if_pos (by simp)]
  simp only [Option.getD_some]
  rw [safeUpdate_ok st _ hfail]
  dsimp only
  refine ⟨{ st with recs := st.recs.map (fun r =>
      if KnowledgeManagementTool.titleFilt t r.metadata then
        { r with
            metadata := spreadMerge (spreadMerge r.metadata nm)
                          [("lastUpdated".toList, MVal.s env.nowIso)] }
      else r) }, ?_, rfl, ?_⟩
  · simp only [List.length_map]
    rw [patch_fold_filter st.recs
        (fun r => KnowledgeManagementTool.titleFilt t r.metadata)
        (fun r => spreadMerge (spreadMerge r.metadata nm)
          [("lastUpdated".toList, MVal.s env.nowIso)]) hnodup]
  · intro r _ _
    refine ⟨?_, ?_, ?_⟩
    · rw [jsGet_spreadMerge, jsGet_spreadMerge, hk,
        jsGet_single_ne k "lastUpdated".toList (MVal.s env.nowIso) hklu]
      cases jsGet r.metadata k <;> simp
    · rw [jsGet_spreadMerge]
      have hL : jsGet [("lastUpdated".toList, MVal.s env.nowIso)] "lastUpdated".toList =
          some (MVal.s env.nowIso) := rfl
      rw [hL]
      cases jsGet (spreadMerge r.metadata nm) "lastUpdated".toList <;> simp
    · rw [jsGet_spreadMerge, jsGet_spreadMerge, hcontent]
      have hL : jsGet [("lastUpdated".toList, MVal.s env.nowIso)] "content".toList = none := rfl
      rw [hL]
      cases jsGet r.metadata "content".toList <;> simp

/-- C6 witness: the amended update law on a two-chunk `Doc` document
plus an unrelated chunk, setting a new `category`. -/
theorem C6_witness :
    (wUpd2Store.fail = none) ∧
    ((wUpd2Store.recs.map PineRec.id).Nodup) ∧
    (wUpd2Opts.title = some "Doc".toList) ∧
    (wUpd2Opts.operation = "metadata-only".toList) ∧
    (wUpd2Opts.newMetadata = some [("category".toList, MVal.s "Updated".toList)]) ∧
    ((wUpd2Store.recs.filter (fun r =>
        KnowledgeManagementTool.titleFilt "Doc".toList r.metadata)).length ≤ 10000) ∧
    (wUpd2Store.recs.filter (fun r =>
        KnowledgeManagementTool.titleFilt "Doc".toList r.metadata) ≠ []) ∧
    (∃ st2, KnowledgeManagementTool.updateDocument wDate wIndexCollab wUpd2Store wUpd2Opts =
      (Except.ok (KnowledgeManagementTool.UpdateData.metadataOnly
          (wUpd2Store.recs.filter (fun r =>
            KnowledgeManagementTool.titleFilt "Doc".toList r.metadata)).length
          (metaKeys [("category".toList, MVal.s "Updated".toList)])),
        st2,
        [PineEff.query, PineEff.updateMeta
          (wUpd2Store.recs.filter (fun r =>
            KnowledgeManagementTool.titleFilt "Doc".toList r.metadata)).length]) ∧
      st2.recs = wUpd2Store.recs.map (fun r =>
        if KnowledgeManagementTool.titleFilt "Doc".toList r.metadata then
          { r with
              metadata := spreadMerge
                            (spreadMerge r.metadata
                              [("category".toList, MVal.s "Updated".toList)])
                            [("lastUpdated".toList, MVal.s wDate.nowIso)] }
        else r) ∧
      (∀ r ∈ wUpd2Store.recs,
        KnowledgeManagementTool.titleFilt "Doc".toList r.metadata = true →
        jsGet (spreadMerge
            (spreadMerge r.metadata [("category".toList, MVal.s "Updated".toList)])
            [("lastUpdated".toList, MVal.s wDate.nowIso)]) "category".toList =
          some (MVal.s "Updated".toList) ∧
        jsGet (spreadMerge
            (spreadMerge r.metadata [("category".toList, MVal.s "Updated".toList)])
            [("lastUpdated".toList, MVal.s wDate.nowIso)]) "lastUpdated".toList =
          some (MVal.s wDate.nowIso) ∧
        jsGet (spreadMerge
            (spreadMerge r.metadata [("category".toList, MVal.s "Updated".toList)])
            [("lastUpdated".toList, MVal.s wDate.nowIso)]) "content".toList =
          jsGet r.metadata "content".toList)) :=
  ⟨rfl, by decide, rfl, rfl, rfl, by decide, by decide,
    C6_metadata_only_update_amended wDate wIndexCollab wUpd2Store wUpd2Opts "Doc".toList
      [("category".toList, MVal.s "Updated".toList)] "category".toList
      (MVal.s "Updated".toList) rfl (by decide) rfl rfl rfl (by decide) (by decide)
      (by decide) (by decide) (by decide)⟩

/-! ## C7 -/

theorem calculateRerankScore_formula (env : JsDate) (result : SearchResult) (query : Str) :
    KnowledgeSearchTool.calculateRerankScore env result query =
      min (result.score +
        (((wordRuns (toLowerS query)).filter
            (fun w => jsIncludes (toLowerS result.content) w)).length : ℚ) * (1 / 10) +
        (if result.timestamp.isEmpty = false then
          match KnowledgeSearchTool.getDaysSince env result.timestamp with
          | some d => if d < 30 then (5 : ℚ) / 100 else 0
          | none => 0
         else 0) +
        (if (!result.source.isEmpty &&
            jsIncludes result.source "official".toList) = true then (5 : ℚ) / 100
         else 0)) 1 := by
  unfold KnowledgeSearchTool.calculateRerankScore
  dsimp only
  rw [jsMin_eq]
  congr 1
  repeat' split <;>
    simp [jsAdd_eq, jsMul_eq, qn_eq, Rat.divInt_eq_div] <;>
    ring_nf

/-- C7: when advanced search returns a result object, every combined
entry's re-rank score is the similarity score plus `0.1` per exact
query-word match in the content, plus `0.05` for a timestamp within 30
days, plus `0.05` for a source containing `official`, clamped at `1.0`;
and the combined list is the first `topK` entries of a
descending-by-rerank-score ordering of the deduplicated results. -/
theorem C7_advanced_rerank (c : SearchCollab) (env : JsDate) (query : Str)
    (strategies : List Str) (topK : Nat) (category : Option Str)
    (out : KnowledgeSearchTool.AdvOutput)
    (hout : KnowledgeSearchTool.executeAdvanced c env query strategies topK category =
      Except.ok out) :
    (∀ x ∈ out.combined,
      x.rerankScore = min (x.base.score +
        (((wordRuns (toLowerS query)).filter
            (fun w => jsIncludes (toLowerS x.base.content) w)).length : ℚ) * (1 / 10) +
        (if x.base.timestamp.isEmpty = false then
          match KnowledgeSearchTool.getDaysSince env x.base.timestamp with
          | some d => if d < 30 then (5 : ℚ) / 100 else 0
          | none => 0
         else 0) +
        (if (!x.base.source.isEmpty &&
            jsIncludes x.base.source "official".toList) = true then (5 : ℚ) / 100
         else 0)) 1) ∧
    List.Pairwise (fun a b => b.rerankScore ≤ a.rerankScore) out.combined ∧
    (∃ kwList full, out.keyword = KnowledgeSearchTool.KwField.arr kwList ∧
      full.Perm ((KnowledgeSearchTool.deduplicateResults (out.semantic ++ kwList)).map
        (fun r => ({ base := r
                     rerankScore := KnowledgeSearchTool.calculateRerankScore env r query }
          : KnowledgeSearchTool.Reranked))) ∧
      List.Pairwise (fun a b => b.rerankScore ≤ a.rerankScore) full ∧
      out.combined = full.take topK) := by
  unfold KnowledgeSearchTool.executeAdvanced at hout
  dsimp only at hout
  cases hkw : strategies.contains "keyword".toList
  case true =>
    rw [hkw] at hout
    simp [KnowledgeSearchTool.jsSpreadList] at hout
  case false =>
    rw [hkw] at hout
    rw [if_neg (show ¬(false = true) by decide)] at hout
    simp only [KnowledgeSearchTool.jsSpreadList] at hout
    rw [Except.ok.injEq] at hout
    subst hout
    dsimp only [KnowledgeSearchTool.rerankResults]
    have hmemScore : ∀ x, x ∈ List.insertionSort
        (fun a b : KnowledgeSearchTool.Reranked => b.rerankScore ≤ a.rerankScore)
        ((KnowledgeSearchTool.deduplicateResults
          ((if strategies.contains "semantic".toList = true then
            (KnowledgeSearchTool.execute c query topK category).results
           else []) ++ [])).map
          (fun r => ({ base := r
                       rerankScore := KnowledgeSearchTool.calculateRerankScore env r query }
            : KnowledgeSearchTool.Reranked))) →
        x.rerankScore = KnowledgeSearchTool.calculateRerankScore env x.base query := by
      intro x hx
      have hx2 := (List.perm_insertionSort
        (fun a b : KnowledgeSearchTool.Reranked => b.rerankScore ≤ a.rerankScore) _).mem_iff.mp hx
      obtain ⟨r, _, rfl⟩ := List.mem_map.mp hx2
      rfl
    refine ⟨?_, ?_, [], _, rfl, List.perm_insertionSort _ _, List.sorted_insertionSort _ _, rfl⟩
    · intro x hx
      have hx1 : x ∈ List.insertionSort
          (fun a b : KnowledgeSearchTool.Reranked => b.rerankScore ≤ a.rerankScore) _ :=
        (List.take_sublist _ _).mem hx
      rw [hmemScore x hx1, calculateRerankScore_formula]
    · exact List.Pairwise.sublist (List.take_sublist _ _) (List.sorted_insertionSort _ _)

/-- C7 witness: the re-rank law evaluated on a concrete semantic-only
advanced search. -/
theorem C7_witness :
    (KnowledgeSearchTool.executeAdvanced wSearchCollab wDate "alpha".toList
        ["semantic".toList] 5 none = Except.ok wAdvOut) ∧
    List.Pairwise (fun a b => b.rerankScore ≤ a.rerankScore) wAdvOut.combined :=
  ⟨by decide,
    (C7_advanced_rerank wSearchCollab wDate "alpha".toList ["semantic".toList] 5 none wAdvOut
      (by decide)).2.1⟩

/-! ## C9 -/

theorem str_contains_iff (l : List Str) (x : Str) : l.contains x = true ↔ x ∈ l := by
  induction l with
  | nil => simp
  | cons a l ih => simp [List.contains_cons, ih]

theorem dupIdsGo_subset : ∀ (vs : List PineRec) (seen : List Str) (x : Str),
    x ∈ KnowledgeManagementTool.dupIdsGo vs seen → x ∈ vs.map PineRec.id := by
  intro vs
  induction vs with
  | nil =>
    intro seen x hx
    simp [KnowledgeManagementTool.dupIdsGo] at hx
  | cons v rest ih =>
    intro seen x hx
    rw [List.map_cons]
    simp only [KnowledgeManagementTool.dupIdsGo] at hx
    revert hx
    cases hg : getStr v.metadata "content".toList with
    | none =>
      intro hx
      exact List.mem_cons_of_mem _ (ih seen x hx)
    | some ct =>
      dsimp only
      by_cases he : ct.isEmpty = true
      · rw [if_pos he]
        intro hx
        exact List.mem_cons_of_mem _ (ih seen x hx)
      · rw [if_neg he]
        by_cases hc : seen.contains (KnowledgeManagementTool.hashContent ct) = true
        · rw [if_pos hc]
          intro hx
          cases List.mem_cons.mp hx with
          | inl h => exact List.mem_cons.mpr (Or.inl h)
          | inr h => exact List.mem_cons_of_mem _ (ih seen x h)
        · rw [if_neg hc]
          intro hx
          exact List.mem_cons_of_mem _ (ih _ x hx)

theorem dupIdsGo_spec : ∀ (vs : List PineRec) (seen : List Str) (r : PineRec) (h : Str),
    r ∈ vs → (vs.map PineRec.id).Nodup → KnowledgeManagementTool.dupKey r = some h →
    (r.id ∈ KnowledgeManagementTool.dupIdsGo vs seen ↔
      ¬(h ∉ seen ∧
        vs.find? (fun v => decide (KnowledgeManagementTool.dupKey v = some h)) = some r)) := by
  intro vs
  induction vs with
  | nil =>
    intro seen r h hr
    exact absurd hr (List.not_mem_nil _)
  | cons v rest ih =>
    intro seen r h hr hnd hkey
    rw [List.map_cons] at hnd
    have hnd0 := List.nodup_cons.mp hnd
    cases hg : getStr v.metadata "content".toList with
    | none =>
      have hdk : KnowledgeManagementTool.dupKey v = none := by
        unfold KnowledgeManagementTool.dupKey
        rw [hg]
      have hvr : v ≠ r := by
        intro e
        rw [e, hkey] at hdk
        cases hdk
      have hr2 : r ∈ rest := by
        cases List.mem_cons.mp hr with
        | inl e => exact absurd e.symm hvr
        | inr hh => exact hh
      have hstep : KnowledgeManagementTool.dupIdsGo (v :: rest) seen =
          KnowledgeManagementTool.dupIdsGo rest seen := by
        simp only [KnowledgeManagementTool.dupIdsGo, hg]
      rw [hstep, List.find?_cons_of_neg _ (by simp [hdk])]
      exact ih seen r h hr2 hnd0.2 hkey
    | some ct =>
      by_cases he : ct.isEmpty = true
      · have hdk : KnowledgeManagementTool.dupKey v = none := by
          unfold KnowledgeManagementTool.dupKey
          rw [hg]
          dsimp only
          rw [if_pos he]
        have hvr : v ≠ r := by
          intro e
          rw [e, hkey] at hdk
          cases hdk
        have hr2 : r ∈ rest := by
          cases List.mem_cons.mp hr with
          | inl e => exact absurd e.symm hvr
          | inr hh => exact hh
        have hstep : KnowledgeManagementTool.dupIdsGo (v :: rest) seen =
            KnowledgeManagementTool.dupIdsGo rest seen := by
          simp only [KnowledgeManagementTool.dupIdsGo, hg, if_pos he]
        rw [hstep, List.find?_cons_of_neg _ (by simp [hdk])]
        exact ih seen r h hr2 hnd0.2 hkey
      · have hdk : KnowledgeManagementTool.dupKey v =
            some (KnowledgeManagementTool.hashContent ct) := by
          unfold KnowledgeManagementTool.dupKey
          rw [hg]
          dsimp only
          rw [if_neg he]
        by_cases hvr : v = r
        · subst hvr
          have hh : KnowledgeManagementTool.hashContent ct = h :=
            Option.some.inj (hdk.symm.trans hkey)
          by_cases hc : seen.contains (KnowledgeManagementTool.hashContent ct) = true
          · have hstep : KnowledgeManagementTool.dupIdsGo (v :: rest) seen =
                v.id :: KnowledgeManagementTool.dupIdsGo rest seen := by
              simp only [KnowledgeManagementTool.dupIdsGo, hg, if_neg he]
              rw [if_pos hc]
            rw [hstep, List.find?_cons_of_pos _ (by simp [hdk, hh])]
            refine iff_of_true (List.mem_cons_self _ _) ?_
            intro hcon
            exact hcon.1 (hh ▸ (str_contains_iff seen _).mp hc)
          · have hstep : KnowledgeManagementTool.dupIdsGo (v :: rest) seen =
                KnowledgeManagementTool.dupIdsGo rest
                  (KnowledgeManagementTool.hashContent ct :: seen) := by
              simp only [KnowledgeManagementTool.dupIdsGo, hg, if_neg he]
              rw [if_neg hc]
            rw [hstep, List.find?_cons_of_pos _ (by simp [hdk, hh])]
            refine iff_of_false ?_ ?_
            · intro hx
              exact hnd0.1 (dupIdsGo_subset rest _ _ hx)
            · intro hcon
              refine hcon ⟨?_, rfl⟩
              intro hmem
              exact hc ((str_contains_iff seen _).mpr (hh ▸ hmem))
        · have hr2 : r ∈ rest := by
            cases List.mem_cons.mp hr with
            | inl e => exact absurd e.symm hvr
            | inr hh2 => exact hh2
          have hvid : v.id ≠ r.id := by
            intro e
            apply hnd0.1
            rw [e]
            exact List.mem_map_of_mem PineRec.id hr2
          by_cases hhv : KnowledgeManagementTool.hashContent ct = h
          · have hfind : (v :: rest).find?
                (fun v => decide (KnowledgeManagementTool.dupKey v = some h)) = some v :=
              List.find?_cons_of_pos _ (by simp [hdk, hhv])
            rw [hfind]
            by_cases hc : seen.contains (KnowledgeManagementTool.hashContent ct) = true
            · have hstep : KnowledgeManagementTool.dupIdsGo (v :: rest) seen =
                  v.id :: KnowledgeManagementTool.dupIdsGo rest seen := by
                simp only [KnowledgeManagementTool.dupIdsGo, hg, if_neg he]
                rw [if_pos hc]
              rw [hstep]
              have hih := ih seen r h hr2 hnd0.2 hkey
              have hhseen : h ∈ seen := hhv ▸ (str_contains_iff seen _).mp hc
              refine iff_of_true ?_ ?_
              · exact List.mem_cons.mpr (Or.inr (hih.mpr (fun hcon => hcon.1 hhseen)))
              · intro hcon
                exact hcon.1 hhseen
            · have hstep : KnowledgeManagementTool.dupIdsGo (v :: rest) seen =
                  KnowledgeManagementTool.dupIdsGo rest
                    (KnowledgeManagementTool.hashContent ct :: seen) := by
                simp only [KnowledgeManagementTool.dupIdsGo, hg, if_neg he]
                rw [if_neg hc]
              rw [hstep]
              have hih := ih (KnowledgeManagementTool.hashContent ct :: seen) r h hr2
                hnd0.2 hkey
              have hhseen : h ∈ KnowledgeManagementTool.hashContent ct :: seen := by
                rw [← hhv]
                exact List.mem_cons_self _ _
              refine iff_of_true ?_ ?_
              · exact hih.mpr (fun hcon => hcon.1 hhseen)
              · intro hcon
                exact hvr (Option.some.inj hcon.2)
          · have hfind : (v :: rest).find?
                (fun v => decide (KnowledgeManagementTool.dupKey v = some h)) =
                rest.find? (fun v => decide (KnowledgeManagementTool.dupKey v = some h)) :=
              List.find?_cons_of_neg _ (by simp [hdk, hhv])
            rw [hfind]
            by_cases hc : seen.contains (KnowledgeManagementTool.hashContent ct) = true
            · have hstep : KnowledgeManagementTool.dupIdsGo (v :: rest) seen =
                  v.id :: KnowledgeManagementTool.dupIdsGo rest seen := by
                simp only [KnowledgeManagementTool.dupIdsGo, hg, if_neg he]
                rw [if_pos hc]
              rw [hstep]
              have hih := ih seen r h hr2 hnd0.2 hkey
              constructor
              · intro hx
                cases List.mem_cons.mp hx with
                | inl e => exact absurd e.symm hvid
                | inr hx2 => exact hih.mp hx2
              · intro hrhs
                exact List.mem_cons.mpr (Or.inr (hih.mpr hrhs))
            · have hstep : KnowledgeManagementTool.dupIdsGo (v :: rest) seen =
                  KnowledgeManagementTool.dupIdsGo rest
                    (KnowledgeManagementTool.hashContent ct :: seen) := by
                simp only [KnowledgeManagementTool.dupIdsGo, hg, if_neg he]
                rw [if_neg hc]
              rw [hstep]
              have hih := ih (KnowledgeManagementTool.hashContent ct :: seen) r h hr2
                hnd0.2 hkey
              constructor
              · intro hx hcon
                refine hih.mp hx ⟨?_, hcon.2⟩
                intro hm
                cases List.mem_cons.mp hm with
                | inl e => exact hhv e.symm
                | inr hm2 => exact hcon.1 hm2
              · intro hrhs
                apply hih.mpr
                intro hcon2
                exact hrhs ⟨fun hm => hcon2.1 (List.mem_cons_of_mem _ hm), hcon2.2⟩

/-- C9 counterexample: two stored records with identical normalized
content hash whose content is shorter than 10 trimmed characters.
Under the default cleanup options the empty-chunk pass removes BOTH
records (the first occurrence does not survive), so no record among
them remains, while `duplicatesFound = duplicatesRemoved = 1`. -/
theorem C9_counterexample :
    KnowledgeManagementTool.dupKey wShortA = KnowledgeManagementTool.dupKey wShortB ∧
    (KnowledgeManagementTool.dupKey wShortA).isSome = true ∧
    wShortA.id ≠ wShortB.id ∧
    (KnowledgeManagementTool.cleanupKnowledgeBase wDate wShortSample wShortStore
        {}).2.1.recs = [] ∧
    (KnowledgeManagementTool.cleanupKnowledgeBase wDate wShortSample wShortStore
        {}).1.duplicatesFound = 1 ∧
    (KnowledgeManagementTool.cleanupKnowledgeBase wDate wShortSample wShortStore
        {}).1.duplicatesRemoved = 1 := by
  refine ⟨by decide, by decide, by decide, by decide, by decide, by decide⟩

/-- C9 (amended): with duplicate removal on, dry-run off and the
empty-chunk and timestamp passes off, cleanup deletes exactly the
SAMPLED records collected by the duplicate scan: a sampled record with
a truthy content hash is removed iff it is not the first sampled
occurrence of its hash; `duplicatesFound = duplicatesRemoved`; a stored
record with that id survives iff it is that first occurrence. -/
theorem C9_dedup_first_wins_amended (env : JsDate) (sample : Nat → List PineRec) (st : Pine)
    (options : KnowledgeManagementTool.MgmtOptions) (vectors : List PineRec)
    (effs : List PineEff) (r : PineRec) (h : Str)
    (hs : KnowledgeManagementTool.sampleVectors sample st 5000 = (Except.ok vectors, effs))
    (hrd : options.removeDuplicates = true)
    (hdr : options.dryRun = false)
    (hre : options.removeEmptyChunks = false)
    (hts : options.updateTimestamps = false)
    (hvnd : (vectors.map PineRec.id).Nodup)
    (hr : r ∈ vectors)
    (hkey : KnowledgeManagementTool.dupKey r = some h) :
    (KnowledgeManagementTool.cleanupKnowledgeBase env sample st options).1.duplicatesFound =
      (KnowledgeManagementTool.dupIdsGo vectors []).length ∧
    (KnowledgeManagementTool.cleanupKnowledgeBase env sample st options).1.duplicatesRemoved =
      (KnowledgeManagementTool.cleanupKnowledgeBase env sample st options).1.duplicatesFound ∧
    (KnowledgeManagementTool.cleanupKnowledgeBase env sample st options).1.errors = [] ∧
    (KnowledgeManagementTool.cleanupKnowledgeBase env sample st options).2.1.recs =
      st.recs.filter
        (fun v => !((KnowledgeManagementTool.dupIdsGo vectors []).contains v.id)) ∧
    (r.id ∈ KnowledgeManagementTool.dupIdsGo vectors [] ↔
      ¬(vectors.find? (fun v => decide (KnowledgeManagementTool.dupKey v = some h)) =
        some r)) ∧
    (r ∈ st.recs →
      (r.id ∈ (KnowledgeManagementTool.cleanupKnowledgeBase env sample st
          options).2.1.recs.map PineRec.id ↔
        vectors.find? (fun v => decide (KnowledgeManagementTool.dupKey v = some h)) =
          some r)) := by
  have hiff : r.id ∈ KnowledgeManagementTool.dupIdsGo vectors [] ↔
      ¬(vectors.find? (fun v => decide (KnowledgeManagementTool.dupKey v = some h)) =
        some r) := by
    have := dupIdsGo_spec vectors [] r h hr hvnd hkey
    simpa using this
  have hcl : KnowledgeManagementTool.cleanupKnowledgeBase env sample st options =
      ({ duplicatesFound := (KnowledgeManagementTool.dupIdsGo vectors []).length
         duplicatesRemoved :=
           if !(KnowledgeManagementTool.dupIdsGo vectors []).isEmpty then
             (KnowledgeManagementTool.dupIdsGo vectors []).length
           else 0
         emptyChunksFound := 0
         emptyChunksRemoved := 0
         timestampsUpdated := 0
         errors := [] },
       (if !(KnowledgeManagementTool.dupIdsGo vectors []).isEmpty then
          KnowledgeManagementTool.safeDeleteOk st (KnowledgeManagementTool.dupIdsGo vectors [])
        else st),
       effs ++ [] ++
         (if !(KnowledgeManagementTool.dupIdsGo vectors []).isEmpty then
            [PineEff.deleteIds (KnowledgeManagementTool.dupIdsGo vectors [])]
          else []) ++ []) := by
    unfold KnowledgeManagementTool.cleanupKnowledgeBase
    rw [hs, hre, hrd, hdr, hts]
    rfl
  rw [hcl]
  dsimp only
  have hrecs : (if !(KnowledgeManagementTool.dupIdsGo vectors []).isEmpty then
        KnowledgeManagementTool.safeDeleteOk st (KnowledgeManagementTool.dupIdsGo vectors [])
      else st).recs =
      st.recs.filter
        (fun v => !((KnowledgeManagementTool.dupIdsGo vectors []).contains v.id)) := by
    by_cases hd : (KnowledgeManagementTool.dupIdsGo vectors []).isEmpty = true
    · rw [List.isEmpty_iff.mp hd]
      simp
    · rw [if_pos (by simp [hd])]
      rfl
  refine ⟨rfl, ?_, rfl, hrecs, hiff, ?_⟩
  · by_cases hd : (KnowledgeManagementTool.dupIdsGo vectors []).isEmpty = true
    · rw [List.isEmpty_iff.mp hd]
      simp
    · rw [if_pos (by simp [hd])]
  · intro hrst
    rw [hrecs]
    constructor
    · intro hx
      obtain ⟨v2, hv2, hv2id⟩ := List.mem_map.mp hx
      obtain ⟨_, hpass⟩ := List.mem_filter.mp hv2
      have hnin : r.id ∉ KnowledgeManagementTool.dupIdsGo vectors [] := by
        rw [← hv2id]
        intro hmem
        rw [(str_contains_iff _ _).mpr hmem] at hpass
        cases hpass
      exact Classical.not_not.mp (fun hne => hnin (hiff.mpr hne))
    · intro hfind
      have hnin : r.id ∉ KnowledgeManagementTool.dupIdsGo vectors [] := fun hmem =>
        (hiff.mp hmem) hfind
      refine List.mem_map.mpr ⟨r, List.mem_filter.mpr ⟨hrst, ?_⟩, rfl⟩
      cases hcont : (KnowledgeManagementTool.dupIdsGo vectors []).contains r.id with
      | false => rfl
      | true => exact absurd ((str_contains_iff _ _).mp hcont) hnin

/-- C9 witness: the amended first-occurrence law on a store with a
duplicated long content, with the empty-chunk pass disabled. -/
theorem C9_witness :
    (KnowledgeManagementTool.sampleVectors wDupSample wDupStore 5000 =
      (Except.ok [wDupA, wDupB, wDupC], [PineEff.query])) ∧
    (([wDupA, wDupB, wDupC].map PineRec.id).Nodup) ∧
    (wDupB ∈ [wDupA, wDupB, wDupC]) ∧
    (KnowledgeManagementTool.dupKey wDupB =
      some (KnowledgeManagementTool.hashContent "duplicate text here".toList)) ∧
    (wDupB.id ∈ KnowledgeManagementTool.dupIdsGo [wDupA, wDupB, wDupC] [] ↔
      ¬([wDupA, wDupB, wDupC].find?
          (fun v => decide (KnowledgeManagementTool.dupKey v =
            some (KnowledgeManagementTool.hashContent "duplicate text here".toList))) =
        some wDupB)) :=
  ⟨by decide, by decide, by decide, by decide,
    (C9_dedup_first_wins_amended wDate wDupSample wDupStore
      { removeEmptyChunks := false } [wDupA, wDupB, wDupC] [PineEff.query] wDupB
      (KnowledgeManagementTool.hashContent "duplicate text here".toList)
      (by decide) rfl rfl rfl rfl (by decide) (by decide) (by decide)).2.2.2.2.1⟩
